import Mathlib

/-!
# Verification of `dyPolyChord.run_dynamic_ns.run_dypolychord`

Shallow embedding of `src/dyPolyChord/run_dynamic_ns.py`.  The Python function
`run_dypolychord(run_func, settings_dict_in, dynamic_goal, **kwargs)` drives an
external nested sampler through three phases (exploratory run, live-point
allocation, dynamic run), managing checkpoint (`.resume`) files on disk.

Modelling choices, each traceable to the source:

* A Python settings dict is `SDict`: one `Option` field per key of
  `default_settings` (lines 30-45).  A missing key is `none`; lines 46-48
  insert defaults into the caller's dict in place (`fillDefaults`).
* Python object identity matters for the claims about in-place mutation, so
  the interpreter carries a heap `Nat → SDict`; `copy.deepcopy` allocates a
  fresh reference.  The caller's `settings_dict_in` lives at reference 0.
* The external collaborators (`run_func`, `nestcheck.data_processing.*`,
  `dyPolyChord.nlive_allocation.allocate`) are not under `src/`; they are an
  `Oracle`: `ndeadAt k`/`nlikeAt k` are the statistics read back after the
  k-th checkpointed invocation, `initNpoints` is `init_run['logl'].shape[0]`,
  and `allocate` maps `(samp_tot, dynamic_goal)` to the allocation result.
* The filesystem is a map from checkpoint-file keys to contents.  All paths
  the function touches have the form `<base_dir>/<file_root'>.resume` or
  `<base_dir>/<file_root'>_<snd>.resume` with `base_dir` fixed, so a key is
  `FKey.resume file_root'` or `FKey.stepResume file_root' snd`; on the keys
  the function actually uses, key equality coincides with path-string
  equality (decimal rendering of `snd` is injective and the `_init`, `_dyn`,
  `_init_<snd>` suffixes are pairwise distinct).  File contents are a `Nat`
  tag recording the dead-point count of the checkpoint the sampler wrote
  (the resume file written by an invocation that stopped at `ndead` dead
  points snapshots that state).
* Python exceptions become `Except Err`; each `Err` constructor names the
  statement of `run_dynamic_ns.py` that raises it.  `Err.fuel` stands for
  non-termination of the `while add_points` loop (the source does not bound
  it), made visible by running the loop on explicit fuel.
* Machine-irrelevant effects (wall-clock timing, `print`, and the
  `pickle_save` of `<root>_dyn_info`, which is not a checkpoint file) are
  dropped; they write no `.resume` file and raise nothing on the paths the
  claims are about.
-/

/-- One Python settings dict: every key of `default_settings`
(`run_dynamic_ns.py` lines 30-45), `none` when the key is absent.
`nlives` is the live-point schedule: likelihood threshold to live-point
count. -/
structure SDict where
  nlive : Option Int := none
  num_repeats : Option Int := none
  file_root : Option String := none
  base_dir : Option String := none
  seed : Option Int := none
  do_clustering : Option Bool := none
  max_ndead : Option Int := none
  write_dead : Option Bool := none
  write_stats : Option Bool := none
  write_live : Option Bool := none
  write_paramnames : Option Bool := none
  equals : Option Bool := none
  cluster_posteriors : Option Bool := none
  nlives : Option (List (ℚ × Int)) := none
  write_resume : Option Bool := none
  read_resume : Option Bool := none
deriving DecidableEq, Repr, Inhabited

/-- Lines 46-48: every default key missing from the dict is inserted with its
default value; present keys are kept. -/
def fillDefaults (s : SDict) : SDict where
  nlive := some (s.nlive.getD 100)
  num_repeats := some (s.num_repeats.getD 20)
  file_root := some (s.file_root.getD "temp")
  base_dir := some (s.base_dir.getD "chains")
  seed := some (s.seed.getD (-1))
  do_clustering := some (s.do_clustering.getD true)
  max_ndead := some (s.max_ndead.getD (-1))
  write_dead := some (s.write_dead.getD true)
  write_stats := some (s.write_stats.getD true)
  write_live := some (s.write_live.getD false)
  write_paramnames := some (s.write_paramnames.getD false)
  equals := some (s.equals.getD false)
  cluster_posteriors := some (s.cluster_posteriors.getD false)
  nlives := some (s.nlives.getD [])
  write_resume := some (s.write_resume.getD false)
  read_resume := some (s.read_resume.getD false)

/-- Dict reads (`settings_dict[...]`) happen only after the defaults were
filled in, so every field is `some`; the `getD` fallbacks below equal the
corresponding defaults and are never exercised on reachable states. -/
def SDict.nliveD (s : SDict) : Int := s.nlive.getD 100

def SDict.file_rootD (s : SDict) : String := s.file_root.getD "temp"

def SDict.base_dirD (s : SDict) : String := s.base_dir.getD "chains"

def SDict.seedD (s : SDict) : Int := s.seed.getD (-1)

def SDict.max_ndeadD (s : SDict) : Int := s.max_ndead.getD (-1)

def SDict.nlivesD (s : SDict) : List (ℚ × Int) := s.nlives.getD []

def SDict.write_resumeD (s : SDict) : Bool := s.write_resume.getD false

def SDict.read_resumeD (s : SDict) : Bool := s.read_resume.getD false

/-- A checkpoint-file name.  `resume fr` is `<base_dir>/<fr>.resume`;
`stepResume fr snd` is `<base_dir>/<fr>_<snd>.resume` (the step-indexed copy
made at line 93-94). -/
inductive FKey where
  | resume (fr : String)
  | stepResume (fr : String) (snd : Int)
deriving DecidableEq, Repr

/-- Python exceptions raised by `run_dypolychord`, by source statement. -/
inductive Err where
  /-- line 58: `TypeError` for unexpected `**kwargs`. -/
  | typeError
  /-- line 60: `assert not settings_dict_in['nlives']`. -/
  | assertNlives
  /-- line 61: `assert not settings_dict_in['read_resume']`. -/
  | assertReadResume
  /-- line 103: `assert settings_dict_in['max_ndead'] > init_run['logl'].shape[0]`. -/
  | assertMaxNdead
  /-- line 107: `assert nlive_const > ninit`. -/
  | assertNliveConst
  /-- line 131: `assert settings_dict_in['seed'] >= 0`. -/
  | assertSeed
  /-- line 112 / line 124 / line 145: `step_ndead` or `outputs_at_resumes`
  unbound when Phase A took the `dynamic_goal == 0` branch. -/
  | nameError
  /-- line 117: `np.where(...)[0][-1]` on an empty index array. -/
  | indexError
  /-- line 145: `outputs_at_resumes[resume_ndead]` with a missing key. -/
  | keyError
  /-- `shutil.copyfile` / `os.remove` on a missing file. -/
  | fileNotFound
  /-- line 135: `max()` of an empty `nlives_dict`. -/
  | valueError
  /-- line 106: division by `ninit = 0`. -/
  | zeroDivision
  /-- the `while add_points` loop (line 77) exceeded the modelling fuel;
  the source itself never bounds this loop. -/
  | fuel
deriving DecidableEq, Repr

/-- Output of `dyPolyChord.nlive_allocation.allocate` (external to `src/`):
the importance-peak index and the live-point schedule. -/
structure DynInfo where
  peak : Nat
  nlivesDict : List (ℚ × Int)
deriving DecidableEq, Repr

/-- The external collaborators, as observed through their return values:
`ndeadAt k` / `nlikeAt k` are `process_polychord_stats` results after the
k-th Phase-A invocation (k = 1, 2, ...), `initNpoints` is
`process_polychord_run(...)['logl'].shape[0]`, and `allocate samp_tot goal`
is the allocation result. -/
structure Oracle where
  ndeadAt : Nat → Nat
  nlikeAt : Nat → Nat
  initNpoints : Int
  allocate : ℚ → ℚ → DynInfo

/-- The `**kwargs` of `run_dypolychord` (lines 49-56): the recognised keys,
plus the names of any unrecognised keys left after the pops (line 57). -/
structure Kwargs where
  ninit : Option Int := none
  init_step : Option Int := none
  nlive_const : Option Int := none
  print_time : Option Bool := none
  seed_increment : Option Int := none
  smoothing_filter : Option Unit := none
  extra : List String := []

/-- The values popped from `**kwargs`, plus the caller's file root
(`settings_dict_in['file_root']` after default filling), from which every
path is built. -/
structure Params where
  ninit : Int
  initStep : Int
  nliveConst : Int
  inc : Int
  frIn : String
deriving DecidableEq, Repr

/-- Lines 49-53: `ninit = kwargs.pop('ninit', 10)`,
`init_step = kwargs.pop('init_step', ninit)`,
`nlive_const = kwargs.pop('nlive_const', settings_dict_in['nlive'])`,
`seed_increment = kwargs.pop('seed_increment', 100)`. -/
def paramsOf (inD : SDict) (kw : Kwargs) : Params :=
  let f := fillDefaults inD
  let ninit := kw.ninit.getD 10
  { ninit := ninit
    initStep := kw.init_step.getD ninit
    nliveConst := kw.nlive_const.getD f.nliveD
    inc := kw.seed_increment.getD 100
    frIn := f.file_rootD }

/-- Interpreter state: the dict heap (references are allocation order, the
caller's `settings_dict_in` is reference 0), the checkpoint files on disk,
and the observable event traces: every `run_func` call with the reference
passed and a value snapshot of the dict at call time, every `shutil.copyfile`
as (source, target), and every `os.remove` attempt. -/
@[ext]
structure St where
  next : Nat
  heap : Nat → SDict
  fs : FKey → Option Nat
  calls : List (Nat × SDict)
  copies : List (FKey × FKey)
  removes : List FKey

def St.hset (st : St) (r : Nat) (d : SDict) : St :=
  { st with heap := fun q => if q = r then d else st.heap q }

/-- `copy.deepcopy`: a fresh reference holding a value copy. -/
def St.alloc (st : St) (d : SDict) : Nat × St :=
  (st.next, { st with next := st.next + 1
                      heap := fun q => if q = st.next then d else st.heap q })

def fsW (fs : FKey → Option Nat) (k : FKey) (v : Nat) : FKey → Option Nat :=
  fun q => if q = k then some v else fs q

/-- `run_func(settings_dict)`: records the call (reference plus snapshot);
if the settings request checkpoint writing, the sampler leaves
`<base_dir>/<file_root>.resume` behind, tagged with the dead-point count
`tag` of the state it snapshots. -/
def runFunc (st : St) (r : Nat) (tag : Nat) : St :=
  let s := st.heap r
  let st := { st with calls := st.calls ++ [(r, s)] }
  if s.write_resumeD then { st with fs := fsW st.fs (.resume s.file_rootD) tag } else st

/-- `os.remove`: raises `FileNotFoundError` when the file is missing.  The
attempt is recorded either way. -/
def osRemove (st : St) (k : FKey) : Except Err Unit × St :=
  let st := { st with removes := st.removes ++ [k] }
  match st.fs k with
  | none => (.error .fileNotFound, st)
  | some _ => (.ok (), { st with fs := fun q => if q = k then none else st.fs q })

/-- Lines 150-154: `os.remove` with `FileNotFoundError` caught and ignored;
any other error would propagate (in this model `os.remove` raises nothing
else). -/
def removeIfPresent (st : St) (k : FKey) : Except Err Unit × St :=
  match osRemove st k with
  | (.ok _, st') => (.ok (), st')
  | (.error .fileNotFound, st') => (.ok (), st')
  | (.error e, st') => (.error e, st')

/-- `shutil.copyfile src dst`. -/
def fsCopy (st : St) (src dst : FKey) : Except Err Unit × St :=
  let st := { st with copies := st.copies ++ [(src, dst)] }
  match st.fs src with
  | none => (.error .fileNotFound, st)
  | some v => (.ok (), { st with fs := fsW st.fs dst v })

/-- `step_ndead[-1] == step_ndead[-2]` guarded by `len(step_ndead) >= 2`
(lines 89-90). -/
def lastTwoEq (l : List Int) : Bool :=
  match l.reverse with
  | a :: b :: _ => a == b
  | _ => false

/-- Python dict assignment `d[k] = v` on an association list. -/
def upsert (l : List (Int × Nat)) (k : Int) (v : Nat) : List (Int × Nat) :=
  if l.any (fun p => p.1 == k) then l.map (fun p => if p.1 == k then (k, v) else p)
  else l ++ [(k, v)]

/-- Python dict lookup `d[k]`. -/
def lookupI (l : List (Int × Nat)) (k : Int) : Option Nat :=
  match l.find? (fun p => p.1 == k) with
  | some p => some p.2
  | none => none

/-- `max(d.values())`: `none` on an empty dict (Python `ValueError`). -/
def maxVals (l : List (ℚ × Int)) : Option Int :=
  (l.map (fun p => p.2)).max?

/-- Lines 78-82, one pass of the loop head over the working dict, with `k`
the number of `step_ndead` entries so far: set `read_resume = True` when
exactly one step is recorded, force `max_ndead = (k + 1) * init_step`, and
bump the seed when the current seed is non-negative. -/
def dictStep (is inc : Int) (k : Nat) (d : SDict) : SDict :=
  let d := if k = 1 then { d with read_resume := some true } else d
  let d := { d with max_ndead := some (((k : Int) + 1) * is) }
  if d.seedD ≥ 0 then { d with seed := some (d.seedD + inc) } else d

/-- Phase-A results carried into Phases B and C: `step_ndead` and
`outputs_at_resumes` (both unbound — `none` — on the `dynamic_goal == 0`
branch), and the reference of the Phase-A working dict. -/
structure AOut where
  snOpt : Option (List Int)
  outsOpt : Option (List (Int × Nat))
  rA : Nat
deriving Repr

/-- Phase-B results: `samp_tot`, the allocation result, and `resume_ndead`
(bound only when a checkpoint was staged). -/
structure BOut where
  sampTot : ℚ
  dynInfo : DynInfo
  resumeNdead : Option Int
deriving DecidableEq, Repr

/-- The observable results of a completed `run_dypolychord` call. -/
structure Res where
  sampTot : ℚ
  dynInfo : DynInfo
  resumeNdead : Option Int
  sn : Option (List Int)
deriving DecidableEq, Repr

/-- Lines 30-63: fill defaults into the caller's dict in place, pop the
keyword arguments, reject unexpected ones (`TypeError`), and check the
`nlives` / `read_resume` preconditions. -/
def setup (inD : SDict) (kw : Kwargs) (fs0 : FKey → Option Nat) : Except Err Params × St :=
  let st : St := { next := 1, heap := fun r => if r = 0 then inD else default
                   fs := fs0, calls := [], copies := [], removes := [] }
  let st := st.hset 0 (fillDefaults inD)
  let p := paramsOf inD kw
  if kw.extra ≠ [] then (.error .typeError, st)
  else if (st.heap 0).nlivesD ≠ [] then (.error .assertNlives, st)
  else if (st.heap 0).read_resumeD then (.error .assertReadResume, st)
  else (.ok p, st)

/-- Lines 77-94: the `while add_points` loop.  Each pass sets
`read_resume = True` once one step is recorded, forces
`max_ndead = (len(step_ndead) + 1) * init_step`, bumps the seed when it is
non-negative, invokes the sampler, reads back `ndead`, records
`ndead - nlive` in `step_ndead`, breaks when the last two entries agree, and
otherwise copies the fresh resume file to its step-indexed name. -/
def phaseALoop (o : Oracle) (p : Params) (r : Nat) :
    Nat → List Int → List (Int × Nat) → St →
    Except Err (List Int × List (Int × Nat)) × St
  | 0, _, _, st => (.error .fuel, st)
  | fuel + 1, sn, outs, st =>
    let d := dictStep p.initStep p.inc sn.length (st.heap r)
    let st := st.hset r d
    let k := sn.length + 1
    let nd := o.ndeadAt k
    let st := runFunc st r nd
    let outs := upsert outs (nd : Int) (o.nlikeAt k)
    let snd := (nd : Int) - d.nliveD
    let sn := sn ++ [snd]
    if lastTwoEq sn then (.ok (sn, outs), st)
    else
      match fsCopy st (.resume (p.frIn ++ "_init")) (.stepResume (p.frIn ++ "_init") snd) with
      | (.ok _, st) => phaseALoop o p r fuel sn outs st
      | (.error e, st) => (.error e, st)

/-- The Phase-A working dict (lines 66-73): the deep copy of the filled
caller dict, pointed at `<file_root>_init` with `nlive = ninit`, and (in the
checkpointed case) `write_resume = True`, `read_resume = False`. -/
def phaseAInitDict (filled : SDict) (fr : String) (ninit : Int) : SDict :=
  { filled with file_root := some (fr ++ "_init"), nlive := some ninit,
                write_resume := some true, read_resume := some false }

/-- Lines 64-95: Phase A.  Deep-copy the caller's dict, point it at
`<file_root>_init` with `nlive = ninit`; for `dynamic_goal == 0` run the
sampler once, otherwise run the checkpointed loop with
`write_resume = True`, `read_resume = False`. -/
def phaseA (o : Oracle) (p : Params) (goal : ℚ) (fuel : Nat) (st : St) :
    Except Err AOut × St :=
  let filled := st.heap 0
  if goal = 0 then
    let d1 : SDict := { filled with file_root := some (filled.file_rootD ++ "_init")
                                    nlive := some p.ninit }
    let (r, st) := st.alloc d1
    (.ok ⟨none, none, r⟩, runFunc st r 0)
  else
    let d1 := phaseAInitDict filled filled.file_rootD p.ninit
    let (r, st) := st.alloc d1
    match phaseALoop o p r fuel [] [] st with
    | (.ok (sn, outs), st) => (.ok ⟨some sn, some outs, r⟩, st)
    | (.error e, st) => (.error e, st)

/-- Lines 100-107: `samp_tot`, either the caller's explicit `max_ndead`
(validated to exceed the exploratory run's point count) or
`init_npoints * (nlive_const / ninit)` (requiring `nlive_const > ninit`). -/
def sampTotE (filled : SDict) (np ninit nliveConst : Int) : Except Err ℚ :=
  if filled.max_ndeadD > 0 then
    if filled.max_ndeadD > np then .ok (filled.max_ndeadD : ℚ)
    else .error .assertMaxNdead
  else if ninit = 0 then .error .zeroDivision
  else if nliveConst > ninit then
    .ok ((np : ℚ) * (nliveConst : ℚ) / (ninit : ℚ))
  else .error .assertNliveConst

/-- Lines 96-125: Phase B.  Compute `samp_tot` (lines 100-107), call the
allocation engine, stage the resume checkpoint when the importance peak is
not the first point (lines 110-120), then delete the step-indexed Phase-A
checkpoints, de-duplicated through `set(step_ndead)` (lines 121-125). -/
def phaseB (o : Oracle) (p : Params) (goal : ℚ) (a : AOut) (st : St) :
    Except Err BOut × St :=
  let filled := st.heap 0
  match sampTotE filled o.initNpoints p.ninit p.nliveConst with
  | .error e => (.error e, st)
  | .ok sampTot =>
    let di := o.allocate sampTot goal
    let staged : Except Err (Option Int) × St :=
      if di.peak ≠ 0 then
        match a.snOpt with
        | none => (.error .nameError, st)
        | some sn =>
          match (sn.filter (fun snd => snd - 1 < (di.peak : Int))).getLast? with
          | none => (.error .indexError, st)
          | some rn =>
            match fsCopy st (.stepResume (p.frIn ++ "_init") rn)
                (.resume (p.frIn ++ "_dyn")) with
            | (.ok _, st) => (.ok (some rn), st)
            | (.error e, st) => (.error e, st)
      else (.ok none, st)
    match staged with
    | (.error e, st) => (.error e, st)
    | (.ok rn, st) =>
      if goal ≠ 0 then
        match a.snOpt with
        | none => (.error .nameError, st)
        | some sn =>
          match removeAll st
              ((sn.dedup).map (fun snd => FKey.stepResume (p.frIn ++ "_init") snd)) with
          | (.ok _, st) => (.ok ⟨sampTot, di, rn⟩, st)
          | (.error e, st) => (.error e, st)
      else (.ok ⟨sampTot, di, rn⟩, st)
where
  /-- `for snd in set(step_ndead): os.remove(...)` — errors propagate. -/
  removeAll (st : St) : List FKey → Except Err Unit × St
    | [] => (.ok (), st)
    | k :: ks =>
      match osRemove st k with
      | (.ok _, st') => removeAll st' ks
      | (.error e, st') => (.error e, st')

/-- Lines 126-161: Phase C.  Re-copy the caller's dict, continue the seed
from the last Phase-A seed, set the live-point count and schedule, enable
`read_resume` exactly when a checkpoint was staged, run the sampler, record
the resume metadata, and best-effort remove both leftover resume files. -/
def phaseC (o : Oracle) (p : Params) (goal : ℚ) (a : AOut) (b : BOut) (st : St) :
    Except Err Res × St :=
  let finalInitSeed := (st.heap a.rA).seedD
  let (r2, st) := st.alloc (st.heap 0)
  let seedE : Except Err SDict :=
    if finalInitSeed ≥ 0 then
      if (st.heap 0).seedD ≥ 0 then .ok { st.heap r2 with seed := some (finalInitSeed + p.inc) }
      else .error .assertSeed
    else .ok (st.heap r2)
  match seedE with
  | .error e => (.error e, st)
  | .ok d =>
    let nlE : Except Err Int :=
      if goal = 0 then
        match maxVals b.dynInfo.nlivesDict with
        | none => .error .valueError
        | some m => .ok m
      else .ok p.ninit
    match nlE with
    | .error e => (.error e, st)
    | .ok nl =>
      let d := { d with nlive := some nl
                        nlives := some b.dynInfo.nlivesDict
                        read_resume := some (decide (b.dynInfo.peak ≠ 0))
                        file_root := some (p.frIn ++ "_dyn") }
      let st := st.hset r2 d
      let st := runFunc st r2 0
      let metaE : Except Err Unit :=
        if b.dynInfo.peak ≠ 0 then
          match b.resumeNdead, a.outsOpt with
          | some rn, some outs =>
            match lookupI outs rn with
            | none => .error .keyError
            | some _ => .ok ()
          | _, _ => .error .nameError
        else .ok ()
      match metaE with
      | .error e => (.error e, st)
      | .ok _ =>
        match removeIfPresent st (.resume (p.frIn ++ "_init")) with
        | (.error e, st) => (.error e, st)
        | (.ok _, st) =>
          match removeIfPresent st (.resume (p.frIn ++ "_dyn")) with
          | (.error e, st) => (.error e, st)
          | (.ok _, st) => (.ok ⟨b.sampTot, b.dynInfo, b.resumeNdead, a.snOpt⟩, st)

/-- `run_dypolychord(run_func, settings_dict_in, dynamic_goal, **kwargs)`
(`run_dynamic_ns.py` lines 17-161), over the sampler/reader/allocator
oracle `o`, an initial disk state `fs0`, and loop fuel. -/
def run_dypolychord (o : Oracle) (inD : SDict) (goal : ℚ) (kw : Kwargs)
    (fuel : Nat) (fs0 : FKey → Option Nat) : Except Err Res × St :=
  match setup inD kw fs0 with
  | (.error e, st) => (.error e, st)
  | (.ok p, st) =>
    match phaseA o p goal fuel st with
    | (.error e, st) => (.error e, st)
    | (.ok a, st) =>
      match phaseB o p goal a st with
      | (.error e, st) => (.error e, st)
      | (.ok b, st) => phaseC o p goal a b st

/-! ## Closed forms for the Phase-A loop -/

/-- The seed in the working dict after `k` applications of the rule at lines
81-82: add `inc` exactly when the current seed is non-negative. -/
def seedAtCall (s0 inc : Int) : Nat → Int
  | 0 => s0
  | k + 1 =>
    if seedAtCall s0 inc k ≥ 0 then seedAtCall s0 inc k + inc else seedAtCall s0 inc k

/-- `step_ndead` entry of the k-th Phase-A invocation (k = 1, 2, ...):
`run_output['ndead'] - settings_dict['nlive']` (line 88). -/
def deltaAt (o : Oracle) (nl : Int) (k : Nat) : Int := (o.ndeadAt k : Int) - nl

/-- The Phase-A working dict as left after the k-th invocation (equally: the
snapshot passed to the k-th invocation), starting from the pre-loop dict
`d1`: `k` iterations of the loop head. -/
def dictAtCall (d1 : SDict) (is inc : Int) : Nat → SDict
  | 0 => d1
  | k + 1 => dictStep is inc k (dictAtCall d1 is inc k)

/-- `step_ndead` after `m` invocations. -/
def snAt (o : Oracle) (nl : Int) (m : Nat) : List Int :=
  (List.range m).map (fun j => deltaAt o nl (j + 1))

/-- The checkpoint files after `m` completed (non-breaking) loop passes:
each pass `j+1` overwrites `<fr>.resume` with the new checkpoint and copies
it to `<fr>_<snd>.resume`. -/
def fsAt (o : Oracle) (nl : Int) (fr : String) (fs0 : FKey → Option Nat) :
    Nat → FKey → Option Nat
  | 0 => fs0
  | m + 1 =>
    fsW (fsW (fsAt o nl fr fs0 m) (.resume fr) (o.ndeadAt (m + 1)))
      (.stepResume fr (deltaAt o nl (m + 1))) (o.ndeadAt (m + 1))

/-- The `run_func` trace of the first `m` Phase-A invocations. -/
def callsAt (d1 : SDict) (is inc : Int) (r m : Nat) : List (Nat × SDict) :=
  (List.range m).map (fun j => (r, dictAtCall d1 is inc (j + 1)))

/-- The `shutil.copyfile` trace of the first `m` non-breaking loop passes. -/
def copiesAt (o : Oracle) (nl : Int) (fr : String) (m : Nat) : List (FKey × FKey) :=
  (List.range m).map
    (fun j => (FKey.resume fr, FKey.stepResume fr (deltaAt o nl (j + 1))))

deriving instance DecidableEq for Except

/-- A concrete sampler oracle for evaluating the interpreter on closed
inputs: the first exploratory invocation stops at 30 dead points, every
later one at 40 (so with `ninit = 10` the recorded `step_ndead` deltas are
20, 30, 30, ...), the processed initial run has 40 points, and the
allocator always returns importance peak 30 with a one-entry schedule. -/
def oracleW : Oracle where
  ndeadAt := fun k => if k = 1 then 30 else 40
  nlikeAt := fun _ => 7
  initNpoints := 40
  allocate := fun _ _ => ⟨30, [(1/2, 50)]⟩

/-- Like `oracleW` but the allocator puts the importance peak at the very
first point, so no checkpoint is ever staged (the configuration a
`dynamic_goal == 0` run needs to finish, since that branch binds no
`step_ndead`). -/
def oracleZ : Oracle where
  ndeadAt := fun k => if k = 1 then 30 else 40
  nlikeAt := fun _ => 7
  initNpoints := 40
  allocate := fun _ _ => ⟨0, [(1/2, 50)]⟩

theorem snAt_length (o : Oracle) (nl : Int) (m : Nat) : (snAt o nl m).length = m := by
  simp [snAt]

theorem snAt_succ (o : Oracle) (nl : Int) (m : Nat) :
    snAt o nl (m + 1) = snAt o nl m ++ [deltaAt o nl (m + 1)] := by
  simp [snAt, List.range_succ]

theorem callsAt_succ (d1 : SDict) (is inc : Int) (r m : Nat) :
    callsAt d1 is inc r (m + 1) = callsAt d1 is inc r m ++ [(r, dictAtCall d1 is inc (m + 1))] := by
  simp [callsAt, List.range_succ]

theorem copiesAt_succ (o : Oracle) (nl : Int) (fr : String) (m : Nat) :
    copiesAt o nl fr (m + 1) = copiesAt o nl fr m ++
      [(FKey.resume fr, FKey.stepResume fr (deltaAt o nl (m + 1)))] := by
  simp [copiesAt, List.range_succ]

theorem dictStep_fields (is inc : Int) (k : Nat) (d : SDict) :
    (dictStep is inc k d).nlive = d.nlive ∧
    (dictStep is inc k d).file_root = d.file_root ∧
    (dictStep is inc k d).write_resume = d.write_resume ∧
    (dictStep is inc k d).nlives = d.nlives ∧
    (dictStep is inc k d).base_dir = d.base_dir := by
  unfold dictStep
  refine ⟨?_, ?_, ?_, ?_, ?_⟩ <;> by_cases hk : k = 1 <;> simp [hk] <;> split <;> simp

theorem dictStep_seedD (is inc : Int) (k : Nat) (d : SDict) :
    (dictStep is inc k d).seedD = if d.seedD ≥ 0 then d.seedD + inc else d.seedD := by
  unfold dictStep
  by_cases hk : k = 1 <;> simp [hk, SDict.seedD] <;> split <;> simp_all

theorem dictStep_seed (is inc : Int) (k : Nat) (d : SDict) (s : Int) (h : d.seed = some s) :
    (dictStep is inc k d).seed = some (if s ≥ 0 then s + inc else s) := by
  unfold dictStep
  by_cases hk : k = 1 <;> simp [hk, h, SDict.seedD] <;> split <;> simp_all

theorem dictStep_max_ndead (is inc : Int) (k : Nat) (d : SDict) :
    (dictStep is inc k d).max_ndead = some (((k : Int) + 1) * is) := by
  unfold dictStep
  by_cases hk : k = 1 <;> simp [hk] <;> split <;> simp

theorem dictStep_read_resume (is inc : Int) (k : Nat) (d : SDict) :
    (dictStep is inc k d).read_resume = if k = 1 then some true else d.read_resume := by
  unfold dictStep
  by_cases hk : k = 1 <;> simp [hk] <;> split <;> simp

theorem dictAtCall_nlive (d1 : SDict) (is inc : Int) (k : Nat) :
    (dictAtCall d1 is inc k).nlive = d1.nlive := by
  induction k with
  | zero => rfl
  | succ k ih => rw [dictAtCall, (dictStep_fields is inc k _).1, ih]

theorem dictAtCall_file_root (d1 : SDict) (is inc : Int) (k : Nat) :
    (dictAtCall d1 is inc k).file_root = d1.file_root := by
  induction k with
  | zero => rfl
  | succ k ih => rw [dictAtCall, (dictStep_fields is inc k _).2.1, ih]

theorem dictAtCall_write_resume (d1 : SDict) (is inc : Int) (k : Nat) :
    (dictAtCall d1 is inc k).write_resume = d1.write_resume := by
  induction k with
  | zero => rfl
  | succ k ih => rw [dictAtCall, (dictStep_fields is inc k _).2.2.1, ih]

theorem dictAtCall_nlives (d1 : SDict) (is inc : Int) (k : Nat) :
    (dictAtCall d1 is inc k).nlives = d1.nlives := by
  induction k with
  | zero => rfl
  | succ k ih => rw [dictAtCall, (dictStep_fields is inc k _).2.2.2.1, ih]

theorem dictAtCall_seedD (d1 : SDict) (is inc : Int) (k : Nat) :
    (dictAtCall d1 is inc k).seedD = seedAtCall d1.seedD inc k := by
  induction k with
  | zero => rfl
  | succ k ih => rw [dictAtCall, dictStep_seedD, ih]; rfl

theorem dictAtCall_seed (d1 : SDict) (is inc : Int) (s0 : Int) (hs : d1.seed = some s0)
    (k : Nat) : (dictAtCall d1 is inc k).seed = some (seedAtCall s0 inc k) := by
  have hs0 : d1.seedD = s0 := by simp [SDict.seedD, hs]
  induction k with
  | zero => simpa [dictAtCall, seedAtCall] using hs
  | succ k ih =>
    rw [dictAtCall, dictStep_seed is inc k _ (seedAtCall s0 inc k) ih, seedAtCall]

theorem dictAtCall_max_ndead (d1 : SDict) (is inc : Int) (k : Nat) :
    (dictAtCall d1 is inc (k + 1)).max_ndead = some (((k : Int) + 1) * is) := by
  rw [dictAtCall, dictStep_max_ndead]

theorem dictAtCall_read_resume (d1 : SDict) (is inc : Int) (hrr : d1.read_resume = some false)
    (k : Nat) : (dictAtCall d1 is inc k).read_resume = some (decide (2 ≤ k)) := by
  induction k with
  | zero => simpa using hrr
  | succ k ih =>
    rw [dictAtCall, dictStep_read_resume]
    rcases Nat.lt_or_ge k 2 with hk | hk
    · interval_cases k
      · simpa using hrr
      · simp
    · have h1 : ¬ k = 1 := by omega
      rw [if_neg h1, ih]
      have h2 : decide (2 ≤ k) = true := by simpa using hk
      have h3 : decide (2 ≤ k + 1) = true := by simp; omega
      rw [h2, h3]

theorem lastTwoEq_concat (l : List Int) (x : Int) :
    lastTwoEq (l ++ [x]) = (match l.reverse with
      | y :: _ => x == y
      | [] => false) := by
  unfold lastTwoEq
  rw [List.reverse_append]
  cases l.reverse <;> simp

theorem lastTwoEq_snAt (o : Oracle) (nl : Int) (m : Nat) :
    lastTwoEq (snAt o nl (m + 1)) =
      if m = 0 then false else decide (deltaAt o nl (m + 1) = deltaAt o nl m) := by
  rw [snAt_succ, lastTwoEq_concat]
  cases m with
  | zero => simp [snAt]
  | succ j =>
    rw [snAt_succ, List.reverse_append]
    simp only [List.reverse_cons, List.reverse_nil, List.nil_append, List.singleton_append]
    have : ¬ j + 1 = 0 := by omega
    rw [if_neg this]
    by_cases h : deltaAt o nl (j + 1 + 1) = deltaAt o nl (j + 1) <;> simp [h]

/-- Characterization of a completed `while add_points` loop: starting from a
state whose loop-visible components are the closed forms at `m` finished
passes (no stop so far), a successful run stops at the first `n > m` with two
consecutive equal `step_ndead` entries, having made one `run_func` call per
pass, copied one step-indexed checkpoint per non-final pass, and left the
working dict at its `n`-th state. -/
theorem phaseALoop_char (o : Oracle) (p : Params) (r : Nat) (d1 : SDict) (st1 : St)
    (hwr : d1.write_resume = some true)
    (hnl : d1.nlive = some p.ninit)
    (hfr : d1.file_root = some (p.frIn ++ "_init")) :
    ∀ fuel m outs stE out stF,
      stE.heap = (fun q => if q = r then dictAtCall d1 p.initStep p.inc m else st1.heap q) →
      stE.fs = fsAt o p.ninit (p.frIn ++ "_init") st1.fs m →
      stE.calls = st1.calls ++ callsAt d1 p.initStep p.inc r m →
      stE.copies = st1.copies ++ copiesAt o p.ninit (p.frIn ++ "_init") m →
      stE.removes = st1.removes →
      stE.next = st1.next →
      (∀ j, 2 ≤ j → j ≤ m → deltaAt o p.ninit j ≠ deltaAt o p.ninit (j - 1)) →
      phaseALoop o p r fuel (snAt o p.ninit m) outs stE = (out, stF) →
      (∃ e, out = Except.error e) ∨
      ∃ n outs2, m < n ∧ 2 ≤ n ∧
        out = Except.ok (snAt o p.ninit n, outs2) ∧
        deltaAt o p.ninit n = deltaAt o p.ninit (n - 1) ∧
        (∀ j, 2 ≤ j → j < n → deltaAt o p.ninit j ≠ deltaAt o p.ninit (j - 1)) ∧
        stF.heap = (fun q => if q = r then dictAtCall d1 p.initStep p.inc n else st1.heap q) ∧
        stF.fs = fsW (fsAt o p.ninit (p.frIn ++ "_init") st1.fs (n - 1))
          (.resume (p.frIn ++ "_init")) (o.ndeadAt n) ∧
        stF.calls = st1.calls ++ callsAt d1 p.initStep p.inc r n ∧
        stF.copies = st1.copies ++ copiesAt o p.ninit (p.frIn ++ "_init") (n - 1) ∧
        stF.removes = st1.removes ∧
        stF.next = st1.next := by
  intro fuel
  induction fuel with
  | zero =>
    intro m outs stE out stF _ _ _ _ _ _ _ hrun
    rw [phaseALoop] at hrun
    cases hrun
    exact Or.inl ⟨Err.fuel, rfl⟩
  | succ fuel ih =>
    intro m outs stE out stF hH hFs hC hCp hR hN hmin hrun
    have hwrD : (dictAtCall d1 p.initStep p.inc (m + 1)).write_resumeD = true := by
      simp [SDict.write_resumeD, dictAtCall_write_resume, hwr]
    have hfrD : (dictAtCall d1 p.initStep p.inc (m + 1)).file_rootD = p.frIn ++ "_init" := by
      simp [SDict.file_rootD, dictAtCall_file_root, hfr]
    have hnlD : (dictAtCall d1 p.initStep p.inc (m + 1)).nliveD = p.ninit := by
      simp [SDict.nliveD, dictAtCall_nlive, hnl]
    rw [phaseALoop] at hrun
    simp only [hH, eq_self_iff_true, ite_true, snAt_length] at hrun
    rw [show dictStep p.initStep p.inc m (dictAtCall d1 p.initStep p.inc m)
          = dictAtCall d1 p.initStep p.inc (m + 1) from rfl] at hrun
    simp only [St.hset, runFunc, hwrD, hfrD, hnlD, eq_self_iff_true, ite_true] at hrun
    have hsnd : (↑(o.ndeadAt (m + 1)) : Int) - p.ninit = deltaAt o p.ninit (m + 1) := rfl
    rw [hsnd, ← snAt_succ, lastTwoEq_snAt] at hrun
    by_cases hstop :
        (if m = 0 then false
         else decide (deltaAt o p.ninit (m + 1) = deltaAt o p.ninit m)) = true
    · rw [if_pos hstop] at hrun
      have hm1 : m ≠ 0 := by
        intro h
        rw [h] at hstop
        simp at hstop
      have heq : deltaAt o p.ninit (m + 1) = deltaAt o p.ninit m := by
        rw [if_neg hm1] at hstop
        simpa using hstop
      cases hrun
      refine Or.inr ⟨m + 1, _, Nat.lt_succ_self m, by omega, rfl, by simpa using heq,
        ?_, ?_, ?_, ?_, ?_, hR, hN⟩
      · intro j h2 hj
        exact hmin j h2 (by omega)
      · funext q
        by_cases hq : q = r <;> simp [hq, hH]
      · rw [hFs]
        simp
      · rw [hC, callsAt_succ, List.append_assoc]
      · rw [hCp]
        simp
    · rw [if_neg hstop] at hrun
      simp only [fsCopy, fsW, eq_self_iff_true, ite_true] at hrun
      have hmin' : ∀ j, 2 ≤ j → j ≤ m + 1 →
          deltaAt o p.ninit j ≠ deltaAt o p.ninit (j - 1) := by
        intro j h2 hj
        rcases Nat.lt_or_ge j (m + 1) with hlt | hge
        · exact hmin j h2 (by omega)
        · have hj1 : j = m + 1 := by omega
          subst hj1
          have hm0 : ¬ m = 0 := by omega
          rw [if_neg hm0] at hstop
          simpa using hstop
      have h1 : (St.mk stE.next
            (fun q => if q = r then dictAtCall d1 p.initStep p.inc (m + 1) else stE.heap q)
            (fsW (fsW stE.fs (FKey.resume (p.frIn ++ "_init")) (o.ndeadAt (m + 1)))
              (FKey.stepResume (p.frIn ++ "_init") (deltaAt o p.ninit (m + 1)))
              (o.ndeadAt (m + 1)))
            (stE.calls ++ [(r, dictAtCall d1 p.initStep p.inc (m + 1))])
            (stE.copies ++ [(FKey.resume (p.frIn ++ "_init"),
              FKey.stepResume (p.frIn ++ "_init") (deltaAt o p.ninit (m + 1)))])
            stE.removes).heap
          = (fun q => if q = r then dictAtCall d1 p.initStep p.inc (m + 1) else st1.heap q) := by
        funext q
        by_cases hq : q = r <;> simp [hq, hH]
      rcases ih (m + 1) _ _ out stF h1
          (by rw [hFs]; rfl)
          (by simp only []; rw [hC, callsAt_succ, List.append_assoc])
          (by simp only []; rw [hCp, copiesAt_succ, List.append_assoc])
          hR hN hmin' hrun with hE | ⟨n, outs2, hlt, h2n, hout, hstopn, hminn, hh, hfs, hc, hcp, hr2, hn2⟩
      · exact Or.inl hE
      · exact Or.inr ⟨n, outs2, by omega, h2n, hout, hstopn, hminn, hh, hfs, hc, hcp, hr2, hn2⟩

/-- Characterization of Phase A in the checkpointed (`dynamic_goal != 0`)
case, in terms of the loop closed forms. -/
theorem phaseA_char_ne (o : Oracle) (p : Params) (goal : ℚ) (fuel : Nat) (st1 : St)
    (out : Except Err AOut) (stF : St) (hg : ¬ goal = 0)
    (hfr : (st1.heap 0).file_rootD = p.frIn) :
    phaseA o p goal fuel st1 = (out, stF) →
    (∃ e, out = Except.error e) ∨
    ∃ n outs2,
      2 ≤ n ∧
      deltaAt o p.ninit n = deltaAt o p.ninit (n - 1) ∧
      (∀ j, 2 ≤ j → j < n → deltaAt o p.ninit j ≠ deltaAt o p.ninit (j - 1)) ∧
      out = Except.ok ⟨some (snAt o p.ninit n), some outs2, st1.next⟩ ∧
      stF.heap = (fun q => if q = st1.next then
        dictAtCall (phaseAInitDict (st1.heap 0) p.frIn p.ninit) p.initStep p.inc n
        else st1.heap q) ∧
      stF.fs = fsW (fsAt o p.ninit (p.frIn ++ "_init") st1.fs (n - 1))
        (.resume (p.frIn ++ "_init")) (o.ndeadAt n) ∧
      stF.calls = st1.calls ++ callsAt (phaseAInitDict (st1.heap 0) p.frIn p.ninit)
        p.initStep p.inc st1.next n ∧
      stF.copies = st1.copies ++ copiesAt o p.ninit (p.frIn ++ "_init") (n - 1) ∧
      stF.removes = st1.removes ∧
      stF.next = st1.next + 1 := by
  intro h
  rw [phaseA] at h
  rw [if_neg hg] at h
  simp only [St.alloc, hfr] at h
  rcases hL : phaseALoop o p st1.next fuel [] []
      { st1 with next := st1.next + 1,
                 heap := fun q => if q = st1.next then
                   phaseAInitDict (st1.heap 0) p.frIn p.ninit else st1.heap q } with ⟨outL, stL⟩
  rw [show (phaseALoop o p st1.next fuel [] []
      { st1 with next := st1.next + 1,
                 heap := fun q => if q = st1.next then
                   phaseAInitDict (st1.heap 0) p.frIn p.ninit else st1.heap q }) = (outL, stL)
      from hL] at h
  have hmaster := phaseALoop_char o p st1.next
    (phaseAInitDict (st1.heap 0) p.frIn p.ninit)
    { st1 with next := st1.next + 1,
               heap := fun q => if q = st1.next then
                 phaseAInitDict (st1.heap 0) p.frIn p.ninit else st1.heap q }
    rfl rfl rfl fuel 0 [] _ outL stL
    (by funext q; by_cases hq : q = st1.next <;> simp [hq, dictAtCall])
    rfl (by simp [callsAt]) (by simp [copiesAt]) rfl rfl
    (by intro j h2 hj; omega) hL
  rcases hmaster with ⟨e, he⟩ | ⟨n, outs2, hlt, h2n, hout, hstopn, hminn, hh, hfs, hc, hcp, hr2, hn2⟩
  · subst he
    simp only [] at h
    cases h
    exact Or.inl ⟨e, rfl⟩
  · subst hout
    simp only [] at h
    cases h
    refine Or.inr ⟨n, outs2, h2n, hstopn, hminn, rfl, ?_, hfs, hc, hcp, hr2, hn2⟩
    rw [hh]
    funext q
    by_cases hq : q = st1.next <;> simp [hq]

/-- Characterization of Phase A in the `dynamic_goal == 0` case: a single
sampler invocation on a fresh copy with `<file_root>_init` and
`nlive = ninit`, no forced checkpointing. -/
theorem phaseA_char_zero (o : Oracle) (p : Params) (fuel : Nat) (st1 : St)
    (out : Except Err AOut) (stF : St)
    (hfr : (st1.heap 0).file_rootD = p.frIn) :
    phaseA o p 0 fuel st1 = (out, stF) →
    out = Except.ok ⟨none, none, st1.next⟩ ∧
    stF.calls = st1.calls ++
      [(st1.next, { st1.heap 0 with file_root := some (p.frIn ++ "_init"), nlive := some p.ninit })] ∧
    stF.heap = (fun q => if q = st1.next then
      { st1.heap 0 with file_root := some (p.frIn ++ "_init"), nlive := some p.ninit }
      else st1.heap q) ∧
    stF.fs = (if (st1.heap 0).write_resumeD then
      fsW st1.fs (.resume (p.frIn ++ "_init")) 0 else st1.fs) ∧
    stF.copies = st1.copies ∧ stF.removes = st1.removes ∧ stF.next = st1.next + 1 := by
  intro h
  rw [phaseA] at h
  rw [if_pos rfl] at h
  simp only [St.alloc, runFunc, hfr, eq_self_iff_true, ite_true] at h
  simp only [SDict.write_resumeD, SDict.file_rootD, Option.getD_some] at h
  by_cases hw : (st1.heap 0).write_resume.getD false = true
  · rw [if_pos hw] at h
    cases h
    rw [if_pos (show (st1.heap 0).write_resumeD = true from hw)]
    exact ⟨rfl, rfl, rfl, rfl, rfl, rfl, rfl⟩
  · rw [if_neg hw] at h
    cases h
    rw [if_neg (show ¬ (st1.heap 0).write_resumeD = true from hw)]
    exact ⟨rfl, rfl, rfl, rfl, rfl, rfl, rfl⟩

theorem fsW_self (fs : FKey → Option Nat) (k : FKey) (v : Nat) : fsW fs k v k = some v := by
  simp [fsW]

theorem fsW_ne (fs : FKey → Option Nat) (k k' : FKey) (v : Nat) (h : k' ≠ k) :
    fsW fs k v k' = fs k' := by
  simp [fsW, h]

theorem seedAtCall_neg (s0 inc : Int) (h : s0 < 0) (k : Nat) : seedAtCall s0 inc k = s0 := by
  induction k with
  | zero => rfl
  | succ k ih => rw [seedAtCall, ih, if_neg (by omega)]

theorem deltaAt_mem_snAt (o : Oracle) (nl : Int) (m : Nat) (hm : 1 ≤ m) :
    deltaAt o nl m ∈ snAt o nl m := by
  have : m - 1 ∈ List.range m := by
    rw [List.mem_range]
    omega
  have h2 : deltaAt o nl (m - 1 + 1) ∈ snAt o nl m := List.mem_map_of_mem _ this
  have h3 : m - 1 + 1 = m := by omega
  rwa [h3] at h2

theorem snAt_mem_of_stop (o : Oracle) (nl : Int) (n : Nat) (h2 : 2 ≤ n)
    (hstop : deltaAt o nl n = deltaAt o nl (n - 1)) :
    ∀ x ∈ snAt o nl n, x ∈ snAt o nl (n - 1) := by
  intro x hx
  obtain ⟨m, rfl⟩ : ∃ m, n = m + 1 := ⟨n - 1, by omega⟩
  rw [snAt_succ] at hx
  rcases List.mem_append.mp hx with hx | hx
  · simpa using hx
  · have hx1 : x = deltaAt o nl (m + 1) := by simpa using hx
    rw [hx1, hstop]
    simp only [Nat.add_sub_cancel]
    exact deltaAt_mem_snAt o nl m (by omega)

theorem fsAt_stepResume_mem (o : Oracle) (nl : Int) (fr : String) (fs0 : FKey → Option Nat)
    (m : Nat) (x : Int) (hx : x ∈ snAt o nl m) :
    ∃ v, fsAt o nl fr fs0 m (.stepResume fr x) = some v := by
  induction m with
  | zero => simp [snAt] at hx
  | succ m ih =>
    rw [snAt_succ] at hx
    by_cases hxd : x = deltaAt o nl (m + 1)
    · subst hxd
      exact ⟨o.ndeadAt (m + 1), fsW_self _ _ _⟩
    · have hx' : x ∈ snAt o nl m := by
        rcases List.mem_append.mp hx with h | h
        · exact h
        · exact absurd (by simpa using h) hxd
      obtain ⟨v, hv⟩ := ih hx'
      refine ⟨v, ?_⟩
      rw [fsAt]
      rw [fsW_ne _ _ _ _ (by simp [hxd])]
      rw [fsW_ne _ _ _ _ (by simp)]
      exact hv

/-- `removeAll` on pairwise-distinct, all-present keys succeeds, clears
exactly those keys, and records one `os.remove` per key. -/
theorem removeAll_char (ks : List FKey) (st : St)
    (hpres : ∀ k ∈ ks, ∃ v, st.fs k = some v) (hnd : ks.Nodup) :
    phaseB.removeAll st ks =
      (.ok (), ⟨st.next, st.heap, fun q => if q ∈ ks then none else st.fs q,
        st.calls, st.copies, st.removes ++ ks⟩) := by
  induction ks generalizing st with
  | nil =>
    rw [phaseB.removeAll]
    cases st
    simp
  | cons k ks ih =>
    rw [phaseB.removeAll, osRemove]
    obtain ⟨v, hv⟩ := hpres k (List.mem_cons_self k ks)
    simp only [hv]
    have hnd' := (List.nodup_cons.mp hnd).2
    have hknot := (List.nodup_cons.mp hnd).1
    have hpres' : ∀ k' ∈ ks, ∃ v',
        (fun q => if q = k then none else st.fs q) k' = some v' := by
      intro k' hk'
      have hne : k' ≠ k := fun hE => hknot (hE ▸ hk')
      obtain ⟨v', hv'⟩ := hpres k' (List.mem_cons_of_mem _ hk')
      refine ⟨v', ?_⟩
      show (if k' = k then none else st.fs k') = _
      rw [if_neg hne]
      exact hv'
    have := ih ⟨st.next, st.heap, fun q => if q = k then none else st.fs q,
      st.calls, st.copies, st.removes ++ [k]⟩ hpres' hnd'
    simp only at this
    rw [this]
    have hfs : (fun q => if q ∈ ks then none
        else if q = k then none else st.fs q)
        = fun q => if q ∈ k :: ks then none else st.fs q := by
      funext q
      by_cases h1 : q ∈ ks
      · simp [h1]
      · by_cases h2 : q = k <;> simp [h1, h2]
    have hrem : st.removes ++ [k] ++ ks = st.removes ++ k :: ks := by
      simp
    rw [hfs, hrem]

theorem setup_snd (inD : SDict) (kw : Kwargs) (fs0 : FKey → Option Nat) :
    (setup inD kw fs0).2.heap 0 = fillDefaults inD ∧
    (setup inD kw fs0).2.next = 1 ∧
    (setup inD kw fs0).2.fs = fs0 ∧
    (setup inD kw fs0).2.calls = [] ∧
    (setup inD kw fs0).2.copies = [] ∧
    (setup inD kw fs0).2.removes = [] := by
  unfold setup St.hset
  simp only [apply_ite Prod.snd, ite_self]
  simp

theorem setup_ok (inD : SDict) (kw : Kwargs) (fs0 : FKey → Option Nat) (p : Params) :
    (setup inD kw fs0).1 = .ok p ↔
      (p = paramsOf inD kw ∧ kw.extra = [] ∧
        (fillDefaults inD).nlivesD = [] ∧ (fillDefaults inD).read_resumeD = false) := by
  unfold setup St.hset
  simp only [eq_self_iff_true, ite_true]
  split_ifs with h1 h2 h3 <;> simp_all <;> tauto

/-- Lines 150-154: the tolerant removal always succeeds, leaves the file
absent, records the attempt, and touches nothing else. -/
theorem removeIfPresent_eq (st : St) (k : FKey) :
    removeIfPresent st k = (.ok (),
      ⟨st.next, st.heap, fun q => if q = k then none else st.fs q,
        st.calls, st.copies, st.removes ++ [k]⟩) := by
  unfold removeIfPresent osRemove
  cases hfs : st.fs k with
  | none =>
    simp only [hfs]
    have : st.fs = fun q => if q = k then none else st.fs q := by
      funext q
      by_cases hq : q = k
      · rw [if_pos hq, hq, hfs]
      · rw [if_neg hq]
    cases st
    simp only at this ⊢
    rw [← this]
  | some v =>
    simp only [hfs]

/-- `os.remove` on a missing file raises `FileNotFoundError` (and the error
propagates unless caught). -/
theorem osRemove_missing (st : St) (k : FKey) (h : st.fs k = none) :
    (osRemove st k).1 = .error .fileNotFound := by
  unfold osRemove
  simp [h]

set_option maxHeartbeats 1600000 in
/-- Characterization of Phase C on any entry state: either some Phase-C
exception propagates, or the dynamic run was invoked exactly once on a fresh
copy of the caller's dict carrying the dynamic-run overrides, and both
leftover resume files were tolerantly removed. -/
theorem phaseC_char (o : Oracle) (p : Params) (goal : ℚ) (a : AOut) (b : BOut) (stB : St)
    (outC : Except Err Res) (stC : St) (hn0 : ¬ (0 : Nat) = stB.next)
    (h : phaseC o p goal a b stB = (outC, stC)) :
    (∃ e, outC = Except.error e) ∨
    ∃ dC nl,
      outC = Except.ok ⟨b.sampTot, b.dynInfo, b.resumeNdead, a.snOpt⟩ ∧
      stC.calls = stB.calls ++ [(stB.next, dC)] ∧
      stC.copies = stB.copies ∧
      stC.removes = stB.removes ++
        [FKey.resume (p.frIn ++ "_init"), FKey.resume (p.frIn ++ "_dyn")] ∧
      stC.next = stB.next + 1 ∧
      (∀ q, ¬ q = stB.next → stC.heap q = stB.heap q) ∧
      (goal = 0 → maxVals b.dynInfo.nlivesDict = some nl) ∧
      (¬ goal = 0 → nl = p.ninit) ∧
      dC.nlive = some nl ∧
      dC.nlives = some b.dynInfo.nlivesDict ∧
      dC.read_resume = some (decide (b.dynInfo.peak ≠ 0)) ∧
      dC.file_root = some (p.frIn ++ "_dyn") ∧
      dC.max_ndead = (stB.heap 0).max_ndead ∧
      dC.write_resume = (stB.heap 0).write_resume ∧
      dC.num_repeats = (stB.heap 0).num_repeats ∧
      dC.base_dir = (stB.heap 0).base_dir ∧
      dC.seed = (if (stB.heap a.rA).seedD ≥ 0 then some ((stB.heap a.rA).seedD + p.inc)
        else (stB.heap 0).seed) ∧
      ((stB.heap a.rA).seedD ≥ 0 → (stB.heap 0).seedD ≥ 0) ∧
      (b.dynInfo.peak ≠ 0 → ∃ rn outs, b.resumeNdead = some rn ∧ a.outsOpt = some outs ∧
        ∃ v, lookupI outs rn = some v) := by
  rw [phaseC] at h
  simp only [St.alloc, eq_self_iff_true, ite_true, if_neg hn0] at h
  by_cases hfin : (stB.heap a.rA).seedD ≥ 0
  case neg =>
    by_cases hg0 : goal = 0
    · cases hmv : maxVals b.dynInfo.nlivesDict with
      | none =>
        simp only [if_neg hfin, if_pos hg0, hmv] at h
        cases h
        exact Or.inl ⟨_, rfl⟩
      | some mv =>
        by_cases hpk : b.dynInfo.peak ≠ 0
        · cases hrn : b.resumeNdead with
          | none =>
            simp only [if_neg hfin, if_pos hg0, hmv, if_pos hpk, hrn] at h
            cases h
            exact Or.inl ⟨_, rfl⟩
          | some rn =>
            cases houts : a.outsOpt with
            | none =>
              simp only [if_neg hfin, if_pos hg0, hmv, if_pos hpk, hrn, houts] at h
              cases h
              exact Or.inl ⟨_, rfl⟩
            | some outs =>
              cases hlk : lookupI outs rn with
              | none =>
                simp only [if_neg hfin, if_pos hg0, hmv, if_pos hpk, hrn, houts, hlk] at h
                cases h
                exact Or.inl ⟨_, rfl⟩
              | some v =>
                simp only [if_neg hfin, if_pos hg0, hmv, if_pos hpk, hrn, houts, hlk,
                    runFunc, St.hset, eq_self_iff_true, ite_true, removeIfPresent_eq] at h
                cases h
                refine Or.inr ⟨⟨some mv, (stB.heap 0).num_repeats, some (p.frIn ++ "_dyn"), (stB.heap 0).base_dir, (stB.heap 0).seed, (stB.heap 0).do_clustering, (stB.heap 0).max_ndead, (stB.heap 0).write_dead, (stB.heap 0).write_stats, (stB.heap 0).write_live, (stB.heap 0).write_paramnames, (stB.heap 0).equals, (stB.heap 0).cluster_posteriors, some b.dynInfo.nlivesDict, (stB.heap 0).write_resume, some (decide (b.dynInfo.peak ≠ 0))⟩,
                  mv, ?_, ?_, ?_, ?_, ?_, ?_, ?_, ?_, ?_, ?_, ?_, ?_, ?_, ?_, ?_, ?_, ?_, ?_, ?_⟩
                all_goals first
                  | (rfl; done)
                  | (split <;> rfl; done)
                  | (intro q hq; split <;> simp [if_neg hq]; done)
                  | (rw [if_neg hfin] <;> rfl; done)
                  | (split <;> simp; done)
                  | (intro _; rfl; done)
                  | (intro hgg; exact absurd hg0 hgg)
                  | (intro hff; exact absurd hff hfin)
                  | (intro _; exact ⟨rn, outs, by simp [hrn], by simp [houts], v, by simp [hlk]⟩)
        case neg =>
          simp only [if_neg hfin, if_pos hg0, hmv, if_neg hpk,
              runFunc, St.hset, eq_self_iff_true, ite_true, removeIfPresent_eq] at h
          cases h
          refine Or.inr ⟨⟨some mv, (stB.heap 0).num_repeats, some (p.frIn ++ "_dyn"), (stB.heap 0).base_dir, (stB.heap 0).seed, (stB.heap 0).do_clustering, (stB.heap 0).max_ndead, (stB.heap 0).write_dead, (stB.heap 0).write_stats, (stB.heap 0).write_live, (stB.heap 0).write_paramnames, (stB.heap 0).equals, (stB.heap 0).cluster_posteriors, some b.dynInfo.nlivesDict, (stB.heap 0).write_resume, some (decide (b.dynInfo.peak ≠ 0))⟩,
            mv, ?_, ?_, ?_, ?_, ?_, ?_, ?_, ?_, ?_, ?_, ?_, ?_, ?_, ?_, ?_, ?_, ?_, ?_, ?_⟩
          all_goals first
            | (rfl; done)
            | (split <;> rfl; done)
            | (intro q hq; split <;> simp [if_neg hq]; done)
            | (rw [if_neg hfin] <;> rfl; done)
            | (split <;> simp; done)
            | (intro _; rfl; done)
            | (intro hgg; exact absurd hg0 hgg)
            | (intro hff; exact absurd hff hfin)
            | (intro hpkk; exact absurd hpkk hpk)
    case neg =>
      by_cases hpk : b.dynInfo.peak ≠ 0
      · cases hrn : b.resumeNdead with
        | none =>
          simp only [if_neg hfin, if_neg hg0, if_pos hpk, hrn] at h
          cases h
          exact Or.inl ⟨_, rfl⟩
        | some rn =>
          cases houts : a.outsOpt with
          | none =>
            simp only [if_neg hfin, if_neg hg0, if_pos hpk, hrn, houts] at h
            cases h
            exact Or.inl ⟨_, rfl⟩
          | some outs =>
            cases hlk : lookupI outs rn with
            | none =>
              simp only [if_neg hfin, if_neg hg0, if_pos hpk, hrn, houts, hlk] at h
              cases h
              exact Or.inl ⟨_, rfl⟩
            | some v =>
              simp only [if_neg hfin, if_neg hg0, if_pos hpk, hrn, houts, hlk,
                  runFunc, St.hset, eq_self_iff_true, ite_true, removeIfPresent_eq] at h
              cases h
              refine Or.inr ⟨⟨some p.ninit, (stB.heap 0).num_repeats, some (p.frIn ++ "_dyn"), (stB.heap 0).base_dir, (stB.heap 0).seed, (stB.heap 0).do_clustering, (stB.heap 0).max_ndead, (stB.heap 0).write_dead, (stB.heap 0).write_stats, (stB.heap 0).write_live, (stB.heap 0).write_paramnames, (stB.heap 0).equals, (stB.heap 0).cluster_posteriors, some b.dynInfo.nlivesDict, (stB.heap 0).write_resume, some (decide (b.dynInfo.peak ≠ 0))⟩,
                p.ninit, ?_, ?_, ?_, ?_, ?_, ?_, ?_, ?_, ?_, ?_, ?_, ?_, ?_, ?_, ?_, ?_, ?_, ?_, ?_⟩
              all_goals first
                | (rfl; done)
                | (split <;> rfl; done)
                | (intro q hq; split <;> simp [if_neg hq]; done)
                | (rw [if_neg hfin] <;> rfl; done)
                | (split <;> simp; done)
                | (intro hgg; exact absurd hgg hg0)
                | (intro _; rfl; done)
                | (intro hff; exact absurd hff hfin)
                | (intro _; exact ⟨rn, outs, by simp [hrn], by simp [houts], v, by simp [hlk]⟩)
      case neg =>
        simp only [if_neg hfin, if_neg hg0, if_neg hpk,
            runFunc, St.hset, eq_self_iff_true, ite_true, removeIfPresent_eq] at h
        cases h
        refine Or.inr ⟨⟨some p.ninit, (stB.heap 0).num_repeats, some (p.frIn ++ "_dyn"), (stB.heap 0).base_dir, (stB.heap 0).seed, (stB.heap 0).do_clustering, (stB.heap 0).max_ndead, (stB.heap 0).write_dead, (stB.heap 0).write_stats, (stB.heap 0).write_live, (stB.heap 0).write_paramnames, (stB.heap 0).equals, (stB.heap 0).cluster_posteriors, some b.dynInfo.nlivesDict, (stB.heap 0).write_resume, some (decide (b.dynInfo.peak ≠ 0))⟩,
          p.ninit, ?_, ?_, ?_, ?_, ?_, ?_, ?_, ?_, ?_, ?_, ?_, ?_, ?_, ?_, ?_, ?_, ?_, ?_, ?_⟩
        all_goals first
          | (rfl; done)
          | (split <;> rfl; done)
          | (intro q hq; split <;> simp [if_neg hq]; done)
          | (rw [if_neg hfin] <;> rfl; done)
          | (split <;> simp; done)
          | (intro hgg; exact absurd hgg hg0)
          | (intro _; rfl; done)
          | (intro hff; exact absurd hff hfin)
          | (intro hpkk; exact absurd hpkk hpk)
  by_cases hi0 : (stB.heap 0).seedD ≥ 0
  case neg =>
    simp only [if_pos hfin, if_neg hi0] at h
    cases h
    exact Or.inl ⟨_, rfl⟩
  by_cases hg0 : goal = 0
  · cases hmv : maxVals b.dynInfo.nlivesDict with
    | none =>
      simp only [if_pos hfin, if_pos hi0, if_pos hg0, hmv] at h
      cases h
      exact Or.inl ⟨_, rfl⟩
    | some mv =>
      by_cases hpk : b.dynInfo.peak ≠ 0
      · cases hrn : b.resumeNdead with
        | none =>
          simp only [if_pos hfin, if_pos hi0, if_pos hg0, hmv, if_pos hpk, hrn] at h
          cases h
          exact Or.inl ⟨_, rfl⟩
        | some rn =>
          cases houts : a.outsOpt with
          | none =>
            simp only [if_pos hfin, if_pos hi0, if_pos hg0, hmv, if_pos hpk, hrn, houts] at h
            cases h
            exact Or.inl ⟨_, rfl⟩
          | some outs =>
            cases hlk : lookupI outs rn with
            | none =>
              simp only [if_pos hfin, if_pos hi0, if_pos hg0, hmv, if_pos hpk, hrn, houts, hlk] at h
              cases h
              exact Or.inl ⟨_, rfl⟩
            | some v =>
              simp only [if_pos hfin, if_pos hi0, if_pos hg0, hmv, if_pos hpk, hrn, houts, hlk,
                  runFunc, St.hset, eq_self_iff_true, ite_true, removeIfPresent_eq] at h
              cases h
              refine Or.inr ⟨⟨some mv, (stB.heap 0).num_repeats, some (p.frIn ++ "_dyn"), (stB.heap 0).base_dir, some ((stB.heap a.rA).seedD + p.inc), (stB.heap 0).do_clustering, (stB.heap 0).max_ndead, (stB.heap 0).write_dead, (stB.heap 0).write_stats, (stB.heap 0).write_live, (stB.heap 0).write_paramnames, (stB.heap 0).equals, (stB.heap 0).cluster_posteriors, some b.dynInfo.nlivesDict, (stB.heap 0).write_resume, some (decide (b.dynInfo.peak ≠ 0))⟩,
                mv, ?_, ?_, ?_, ?_, ?_, ?_, ?_, ?_, ?_, ?_, ?_, ?_, ?_, ?_, ?_, ?_, ?_, ?_, ?_⟩
              all_goals first
                | (rfl; done)
                | (split <;> rfl; done)
                | (intro q hq; split <;> simp [if_neg hq]; done)
                | (rw [if_pos hfin] <;> rfl; done)
                | (split <;> simp; done)
                | (intro _; rfl; done)
                | (intro hgg; exact absurd hg0 hgg)
                | (intro _; exact hi0)
                | (intro _; exact ⟨rn, outs, by simp [hrn], by simp [houts], v, by simp [hlk]⟩)
      case neg =>
        simp only [if_pos hfin, if_pos hi0, if_pos hg0, hmv, if_neg hpk,
            runFunc, St.hset, eq_self_iff_true, ite_true, removeIfPresent_eq] at h
        cases h
        refine Or.inr ⟨⟨some mv, (stB.heap 0).num_repeats, some (p.frIn ++ "_dyn"), (stB.heap 0).base_dir, some ((stB.heap a.rA).seedD + p.inc), (stB.heap 0).do_clustering, (stB.heap 0).max_ndead, (stB.heap 0).write_dead, (stB.heap 0).write_stats, (stB.heap 0).write_live, (stB.heap 0).write_paramnames, (stB.heap 0).equals, (stB.heap 0).cluster_posteriors, some b.dynInfo.nlivesDict, (stB.heap 0).write_resume, some (decide (b.dynInfo.peak ≠ 0))⟩,
          mv, ?_, ?_, ?_, ?_, ?_, ?_, ?_, ?_, ?_, ?_, ?_, ?_, ?_, ?_, ?_, ?_, ?_, ?_, ?_⟩
        all_goals first
          | (rfl; done)
          | (split <;> rfl; done)
          | (intro q hq; split <;> simp [if_neg hq]; done)
          | (rw [if_pos hfin] <;> rfl; done)
          | (split <;> simp; done)
          | (intro _; rfl; done)
          | (intro hgg; exact absurd hg0 hgg)
          | (intro _; exact hi0)
          | (intro hpkk; exact absurd hpkk hpk)
  case neg =>
    by_cases hpk : b.dynInfo.peak ≠ 0
    · cases hrn : b.resumeNdead with
      | none =>
        simp only [if_pos hfin, if_pos hi0, if_neg hg0, if_pos hpk, hrn] at h
        cases h
        exact Or.inl ⟨_, rfl⟩
      | some rn =>
        cases houts : a.outsOpt with
        | none =>
          simp only [if_pos hfin, if_pos hi0, if_neg hg0, if_pos hpk, hrn, houts] at h
          cases h
          exact Or.inl ⟨_, rfl⟩
        | some outs =>
          cases hlk : lookupI outs rn with
          | none =>
            simp only [if_pos hfin, if_pos hi0, if_neg hg0, if_pos hpk, hrn, houts, hlk] at h
            cases h
            exact Or.inl ⟨_, rfl⟩
          | some v =>
            simp only [if_pos hfin, if_pos hi0, if_neg hg0, if_pos hpk, hrn, houts, hlk,
                runFunc, St.hset, eq_self_iff_true, ite_true, removeIfPresent_eq] at h
            cases h
            refine Or.inr ⟨⟨some p.ninit, (stB.heap 0).num_repeats, some (p.frIn ++ "_dyn"), (stB.heap 0).base_dir, some ((stB.heap a.rA).seedD + p.inc), (stB.heap 0).do_clustering, (stB.heap 0).max_ndead, (stB.heap 0).write_dead, (stB.heap 0).write_stats, (stB.heap 0).write_live, (stB.heap 0).write_paramnames, (stB.heap 0).equals, (stB.heap 0).cluster_posteriors, some b.dynInfo.nlivesDict, (stB.heap 0).write_resume, some (decide (b.dynInfo.peak ≠ 0))⟩,
              p.ninit, ?_, ?_, ?_, ?_, ?_, ?_, ?_, ?_, ?_, ?_, ?_, ?_, ?_, ?_, ?_, ?_, ?_, ?_, ?_⟩
            all_goals first
              | (rfl; done)
              | (split <;> rfl; done)
              | (intro q hq; split <;> simp [if_neg hq]; done)
              | (rw [if_pos hfin] <;> rfl; done)
              | (split <;> simp; done)
              | (intro hgg; exact absurd hgg hg0)
              | (intro _; rfl; done)
              | (intro _; exact hi0)
              | (intro _; exact ⟨rn, outs, by simp [hrn], by simp [houts], v, by simp [hlk]⟩)
    case neg =>
      simp only [if_pos hfin, if_pos hi0, if_neg hg0, if_neg hpk,
          runFunc, St.hset, eq_self_iff_true, ite_true, removeIfPresent_eq] at h
      cases h
      refine Or.inr ⟨⟨some p.ninit, (stB.heap 0).num_repeats, some (p.frIn ++ "_dyn"), (stB.heap 0).base_dir, some ((stB.heap a.rA).seedD + p.inc), (stB.heap 0).do_clustering, (stB.heap 0).max_ndead, (stB.heap 0).write_dead, (stB.heap 0).write_stats, (stB.heap 0).write_live, (stB.heap 0).write_paramnames, (stB.heap 0).equals, (stB.heap 0).cluster_posteriors, some b.dynInfo.nlivesDict, (stB.heap 0).write_resume, some (decide (b.dynInfo.peak ≠ 0))⟩,
        p.ninit, ?_, ?_, ?_, ?_, ?_, ?_, ?_, ?_, ?_, ?_, ?_, ?_, ?_, ?_, ?_, ?_, ?_, ?_, ?_⟩
      all_goals first
        | (rfl; done)
        | (split <;> rfl; done)
        | (intro q hq; split <;> simp [if_neg hq]; done)
        | (rw [if_pos hfin] <;> rfl; done)
        | (split <;> simp; done)
        | (intro hgg; exact absurd hgg hg0)
        | (intro _; rfl; done)
        | (intro _; exact hi0)
        | (intro hpkk; exact absurd hpkk hpk)

theorem sampTotE_ok (F : SDict) (np ni nc : Int) (sTot : ℚ)
    (h : sampTotE F np ni nc = .ok sTot) :
    (F.max_ndeadD > 0 → F.max_ndeadD > np ∧ sTot = (F.max_ndeadD : ℚ)) ∧
    (¬ F.max_ndeadD > 0 → ¬ ni = 0 ∧ nc > ni ∧
      sTot = (np : ℚ) * (nc : ℚ) / (ni : ℚ)) := by
  unfold sampTotE at h
  split_ifs at h with h1 h2 h3 h4 <;> simp_all

theorem sampTotE_err_max (F : SDict) (np ni nc : Int)
    (h1 : F.max_ndeadD > 0) (h2 : ¬ F.max_ndeadD > np) :
    sampTotE F np ni nc = .error .assertMaxNdead := by
  unfold sampTotE
  rw [if_pos h1, if_neg h2]

theorem sampTotE_err_nlc (F : SDict) (np ni nc : Int)
    (h1 : ¬ F.max_ndeadD > 0) (h2 : ¬ ni = 0) (h3 : ¬ nc > ni) :
    sampTotE F np ni nc = .error .assertNliveConst := by
  unfold sampTotE
  rw [if_neg h1, if_neg h2, if_neg h3]

set_option maxHeartbeats 1600000 in
/-- Full characterization of a successful goal-driven (`dynamic_goal != 0`)
run: Phase-A loop behaviour, `samp_tot`, checkpoint selection and staging,
checkpoint deletion, and the dynamic-run configuration. -/
theorem run_char_ne (o : Oracle) (inD : SDict) (goal : ℚ) (kw : Kwargs) (fuel : Nat)
    (fs0 : FKey → Option Nat) (res : Res) (st : St) (hg : ¬ goal = 0)
    (h : run_dypolychord o inD goal kw fuel fs0 = (.ok res, st)) :
    ∃ n dC,
      2 ≤ n ∧
      deltaAt o (paramsOf inD kw).ninit n = deltaAt o (paramsOf inD kw).ninit (n - 1) ∧
      (∀ j, 2 ≤ j → j < n →
        deltaAt o (paramsOf inD kw).ninit j ≠ deltaAt o (paramsOf inD kw).ninit (j - 1)) ∧
      res.sn = some (snAt o (paramsOf inD kw).ninit n) ∧
      res.dynInfo = o.allocate res.sampTot goal ∧
      ((fillDefaults inD).max_ndeadD > 0 →
        (fillDefaults inD).max_ndeadD > o.initNpoints ∧
        res.sampTot = ((fillDefaults inD).max_ndeadD : ℚ)) ∧
      (¬ (fillDefaults inD).max_ndeadD > 0 →
        ¬ (paramsOf inD kw).ninit = 0 ∧
        (paramsOf inD kw).nliveConst > (paramsOf inD kw).ninit ∧
        res.sampTot = (o.initNpoints : ℚ) * ((paramsOf inD kw).nliveConst : ℚ) /
          ((paramsOf inD kw).ninit : ℚ)) ∧
      (res.dynInfo.peak ≠ 0 →
        ∃ rn, ((snAt o (paramsOf inD kw).ninit n).filter
            (fun snd => snd - 1 < ((res.dynInfo.peak : Nat) : Int))).getLast? = some rn ∧
          res.resumeNdead = some rn ∧
          st.copies = copiesAt o (paramsOf inD kw).ninit
            ((paramsOf inD kw).frIn ++ "_init") (n - 1) ++
            [(FKey.stepResume ((paramsOf inD kw).frIn ++ "_init") rn,
              FKey.resume ((paramsOf inD kw).frIn ++ "_dyn"))]) ∧
      (res.dynInfo.peak = 0 →
        res.resumeNdead = none ∧
        st.copies = copiesAt o (paramsOf inD kw).ninit
          ((paramsOf inD kw).frIn ++ "_init") (n - 1)) ∧
      st.calls = callsAt (phaseAInitDict (fillDefaults inD) (paramsOf inD kw).frIn
        (paramsOf inD kw).ninit) (paramsOf inD kw).initStep (paramsOf inD kw).inc 1 n
        ++ [(2, dC)] ∧
      dC.nlive = some (paramsOf inD kw).ninit ∧
      dC.nlives = some res.dynInfo.nlivesDict ∧
      dC.read_resume = some (decide (res.dynInfo.peak ≠ 0)) ∧
      dC.file_root = some ((paramsOf inD kw).frIn ++ "_dyn") ∧
      dC.max_ndead = (fillDefaults inD).max_ndead ∧
      dC.write_resume = (fillDefaults inD).write_resume ∧
      dC.seed = (if seedAtCall (fillDefaults inD).seedD (paramsOf inD kw).inc n ≥ 0
        then some (seedAtCall (fillDefaults inD).seedD (paramsOf inD kw).inc n +
          (paramsOf inD kw).inc)
        else (fillDefaults inD).seed) ∧
      st.removes = ((snAt o (paramsOf inD kw).ninit n).dedup.map
          (fun snd => FKey.stepResume ((paramsOf inD kw).frIn ++ "_init") snd))
        ++ [FKey.resume ((paramsOf inD kw).frIn ++ "_init"),
            FKey.resume ((paramsOf inD kw).frIn ++ "_dyn")] ∧
      st.heap 0 = fillDefaults inD ∧
      st.next = 3 := by
  rw [run_dypolychord] at h
  rcases hS : setup inD kw fs0 with ⟨outS, stS⟩
  rw [hS] at h
  cases outS with
  | error e => simp at h
  | ok pp =>
  simp only [] at h
  have hok : (setup inD kw fs0).1 = .ok pp := by rw [hS]
  obtain ⟨hpp, hex, hnl0, hrr0⟩ := (setup_ok inD kw fs0 pp).mp hok
  subst hpp
  have h00 : stS.heap 0 = fillDefaults inD := by
    have h2 := (setup_snd inD kw fs0).1
    rw [hS] at h2
    exact h2
  have hn1 : stS.next = 1 := by
    have h2 := (setup_snd inD kw fs0).2.1
    rw [hS] at h2
    exact h2
  have hfs0 : stS.fs = fs0 := by
    have h2 := (setup_snd inD kw fs0).2.2.1
    rw [hS] at h2
    exact h2
  have hcl0 : stS.calls = [] := by
    have h2 := (setup_snd inD kw fs0).2.2.2.1
    rw [hS] at h2
    exact h2
  have hcp0 : stS.copies = [] := by
    have h2 := (setup_snd inD kw fs0).2.2.2.2.1
    rw [hS] at h2
    exact h2
  have hrm0 : stS.removes = [] := by
    have h2 := (setup_snd inD kw fs0).2.2.2.2.2
    rw [hS] at h2
    exact h2
  rcases hA : phaseA o (paramsOf inD kw) goal fuel stS with ⟨outA, stA⟩
  rw [hA] at h
  cases outA with
  | error e => simp at h
  | ok a =>
  simp only [] at h
  rcases phaseA_char_ne o (paramsOf inD kw) goal fuel stS (.ok a) stA hg
      (by rw [h00]; rfl) hA with ⟨e, he⟩ |
    ⟨n, outs2, h2n, hstopn, hminn, hout, hh, hfs, hc, hcp, hr2, hn2⟩
  · simp at he
  injection hout with ha
  subst ha
  rw [h00] at hh hc
  rw [hn1] at hh hc hn2 h
  rw [hfs0] at hfs
  rw [hcl0] at hc
  rw [hcp0] at hcp
  rw [hrm0] at hr2
  simp only [List.nil_append] at hc hcp
  have hA0 : stA.heap 0 = fillDefaults inD := by
    rw [hh]
    simp [h00]
  have hA1 : stA.heap 1 = dictAtCall (phaseAInitDict (fillDefaults inD)
      (paramsOf inD kw).frIn (paramsOf inD kw).ninit)
      (paramsOf inD kw).initStep (paramsOf inD kw).inc n := by
    rw [hh]
    simp
  rcases hB : phaseB o (paramsOf inD kw) goal
      ⟨some (snAt o (paramsOf inD kw).ninit n), some outs2, 1⟩ stA with ⟨outB, stB⟩
  rw [hB] at h
  cases outB with
  | error e => simp at h
  | ok b =>
  simp only [] at h
  rw [phaseB] at hB
  simp only [hA0] at hB
  cases hsampE : sampTotE (fillDefaults inD) o.initNpoints (paramsOf inD kw).ninit
      (paramsOf inD kw).nliveConst with
  | error e =>
    simp only [hsampE] at hB
    simp at hB
  | ok sTot =>
  simp only [hsampE] at hB
  obtain ⟨hsmax, hsdiv⟩ := sampTotE_ok _ _ _ _ _ hsampE
  by_cases hpk : (o.allocate sTot goal).peak ≠ 0
  · simp only [if_pos hpk] at hB
    rcases hgl : ((snAt o (paramsOf inD kw).ninit n).filter
        (fun snd => snd - 1 < ((o.allocate sTot goal).peak : Int))).getLast? with _ | rn
    · simp only [hgl] at hB
      simp at hB
    · simp only [hgl] at hB
      have hmemn : rn ∈ snAt o (paramsOf inD kw).ninit n :=
        List.mem_of_mem_filter (List.mem_of_mem_getLast? hgl)
      have hmem1 : rn ∈ snAt o (paramsOf inD kw).ninit (n - 1) :=
        snAt_mem_of_stop o _ n h2n hstopn rn hmemn
      obtain ⟨cv, hcv⟩ := fsAt_stepResume_mem o (paramsOf inD kw).ninit
        ((paramsOf inD kw).frIn ++ "_init") fs0 (n - 1) rn hmem1
      have hsrc : stA.fs (FKey.stepResume ((paramsOf inD kw).frIn ++ "_init") rn)
          = some cv := by
        rw [hfs, fsW_ne _ _ _ _ (by simp)]
        exact hcv
      simp only [fsCopy, hsrc] at hB
      simp only [if_pos hg] at hB
      have hpres : ∀ k ∈ (List.map (fun snd => FKey.stepResume
            ((paramsOf inD kw).frIn ++ "_init") snd)
          (snAt o (paramsOf inD kw).ninit n).dedup),
          ∃ v, (fsW stA.fs (FKey.resume ((paramsOf inD kw).frIn ++ "_dyn")) cv) k
            = some v := by
        intro k hk
        obtain ⟨snd, hsndmem, rfl⟩ := List.mem_map.mp hk
        obtain ⟨v, hv⟩ := fsAt_stepResume_mem o (paramsOf inD kw).ninit
          ((paramsOf inD kw).frIn ++ "_init") fs0 (n - 1) snd
          (snAt_mem_of_stop o _ n h2n hstopn snd (List.mem_dedup.mp hsndmem))
        refine ⟨v, ?_⟩
        rw [fsW_ne _ _ _ _ (by simp), hfs, fsW_ne _ _ _ _ (by simp)]
        exact hv
      have hnd : (List.map (fun snd => FKey.stepResume
            ((paramsOf inD kw).frIn ++ "_init") snd)
          (snAt o (paramsOf inD kw).ninit n).dedup).Nodup :=
        (List.nodup_dedup _).map (fun x y hxy => by simpa using hxy)
      rw [removeAll_char _ (St.mk stA.next stA.heap
        (fsW stA.fs (FKey.resume ((paramsOf inD kw).frIn ++ "_dyn")) cv) stA.calls
        (stA.copies ++ [(FKey.stepResume ((paramsOf inD kw).frIn ++ "_init") rn,
          FKey.resume ((paramsOf inD kw).frIn ++ "_dyn"))]) stA.removes) hpres hnd] at hB
      simp only [] at hB
      injection hB with hb1 hb2
      injection hb1 with hb1
      subst hb1
      subst hb2
      rcases phaseC_char o (paramsOf inD kw) goal _ _ _ (.ok res) st
          (by simp only []; rw [hn2]; omega) h with ⟨e, he⟩ |
        ⟨dC, nl, hCout, hCcalls, hCcopies, hCrem, hCnext, hCheap, hCg0, hCgne,
          hnlive, hnlives, hrr, hfrD, hmnd, hwr2, hnum, hbase, hseedC, hseedImp, hmeta⟩
      · simp at he
      injection hCout with hres
      subst hres
      have hsl : (stA.heap 1).seedD
          = seedAtCall (fillDefaults inD).seedD (paramsOf inD kw).inc n := by
        rw [hA1, dictAtCall_seedD]
        rfl
      refine ⟨n, dC, h2n, hstopn, hminn, rfl, rfl, hsmax, hsdiv, ?_, ?_, ?_,
        ?_, ?_, ?_, ?_, ?_, ?_, ?_, ?_, ?_, ?_⟩
      · intro _
        refine ⟨rn, hgl, rfl, ?_⟩
        rw [show st.copies = stA.copies ++
          [(FKey.stepResume ((paramsOf inD kw).frIn ++ "_init") rn,
            FKey.resume ((paramsOf inD kw).frIn ++ "_dyn"))] from hCcopies, hcp]
      · intro hp0
        exact absurd hp0 hpk
      · rw [show st.calls = stA.calls ++ [(stA.next, dC)] from hCcalls, hc, hn2]
      · rw [hnlive, hCgne hg]
      · exact hnlives
      · exact hrr
      · exact hfrD
      · exact hmnd.trans (congrArg SDict.max_ndead hA0)
      · exact hwr2.trans (congrArg SDict.write_resume hA0)
      · rw [show dC.seed = (if (stA.heap 1).seedD ≥ 0
            then some ((stA.heap 1).seedD + (paramsOf inD kw).inc)
            else (stA.heap 0).seed) from hseedC, hsl,
          show (stA.heap 0).seed = (fillDefaults inD).seed from congrArg SDict.seed hA0]
      · rw [show st.removes = (stA.removes ++ (List.map (fun snd => FKey.stepResume
            ((paramsOf inD kw).frIn ++ "_init") snd)
            (snAt o (paramsOf inD kw).ninit n).dedup)) ++
          [FKey.resume ((paramsOf inD kw).frIn ++ "_init"),
            FKey.resume ((paramsOf inD kw).frIn ++ "_dyn")] from hCrem, hr2]
        simp
      · exact ((hCheap 0 (by simp only []; rw [hn2]; omega)).trans hA0 : _)
      · rw [show st.next = stA.next + 1 from hCnext, hn2]
  · simp only [if_neg hpk] at hB
    simp only [if_pos hg] at hB
    have hpres : ∀ k ∈ (List.map (fun snd => FKey.stepResume
          ((paramsOf inD kw).frIn ++ "_init") snd)
        (snAt o (paramsOf inD kw).ninit n).dedup),
        ∃ v, stA.fs k = some v := by
      intro k hk
      obtain ⟨snd, hsndmem, rfl⟩ := List.mem_map.mp hk
      obtain ⟨v, hv⟩ := fsAt_stepResume_mem o (paramsOf inD kw).ninit
        ((paramsOf inD kw).frIn ++ "_init") fs0 (n - 1) snd
        (snAt_mem_of_stop o _ n h2n hstopn snd (List.mem_dedup.mp hsndmem))
      refine ⟨v, ?_⟩
      rw [hfs, fsW_ne _ _ _ _ (by simp)]
      exact hv
    have hnd : (List.map (fun snd => FKey.stepResume
          ((paramsOf inD kw).frIn ++ "_init") snd)
        (snAt o (paramsOf inD kw).ninit n).dedup).Nodup :=
      (List.nodup_dedup _).map (fun x y hxy => by simpa using hxy)
    rw [removeAll_char _ stA hpres hnd] at hB
    simp only [] at hB
    injection hB with hb1 hb2
    injection hb1 with hb1
    subst hb1
    subst hb2
    rcases phaseC_char o (paramsOf inD kw) goal _ _ _ (.ok res) st
        (by simp only []; rw [hn2]; omega) h with ⟨e, he⟩ |
      ⟨dC, nl, hCout, hCcalls, hCcopies, hCrem, hCnext, hCheap, hCg0, hCgne,
        hnlive, hnlives, hrr, hfrD, hmnd, hwr2, hnum, hbase, hseedC, hseedImp, hmeta⟩
    · simp at he
    injection hCout with hres
    subst hres
    have hsl : (stA.heap 1).seedD
        = seedAtCall (fillDefaults inD).seedD (paramsOf inD kw).inc n := by
      rw [hA1, dictAtCall_seedD]
      rfl
    have hpk0 : (o.allocate sTot goal).peak = 0 := by
      by_contra hne
      exact hpk hne
    refine ⟨n, dC, h2n, hstopn, hminn, rfl, rfl, hsmax, hsdiv, ?_, ?_, ?_,
      ?_, ?_, ?_, ?_, ?_, ?_, ?_, ?_, ?_, ?_⟩
    · intro hne
      exact absurd hne (by simp [hpk0])
    · intro _
      refine ⟨rfl, ?_⟩
      rw [show st.copies = stA.copies from hCcopies, hcp]
    · rw [show st.calls = stA.calls ++ [(stA.next, dC)] from hCcalls, hc, hn2]
    · rw [hnlive, hCgne hg]
    · exact hnlives
    · exact hrr
    · exact hfrD
    · exact hmnd.trans (congrArg SDict.max_ndead hA0)
    · exact hwr2.trans (congrArg SDict.write_resume hA0)
    · rw [show dC.seed = (if (stA.heap 1).seedD ≥ 0
          then some ((stA.heap 1).seedD + (paramsOf inD kw).inc)
          else (stA.heap 0).seed) from hseedC, hsl,
        show (stA.heap 0).seed = (fillDefaults inD).seed from congrArg SDict.seed hA0]
    · rw [show st.removes = (stA.removes ++ (List.map (fun snd => FKey.stepResume
          ((paramsOf inD kw).frIn ++ "_init") snd)
          (snAt o (paramsOf inD kw).ninit n).dedup)) ++
        [FKey.resume ((paramsOf inD kw).frIn ++ "_init"),
          FKey.resume ((paramsOf inD kw).frIn ++ "_dyn")] from hCrem, hr2]
      simp
    · exact ((hCheap 0 (by simp only []; rw [hn2]; omega)).trans hA0 : _)
    · rw [show st.next = stA.next + 1 from hCnext, hn2]

set_option maxHeartbeats 1600000 in
/-- Full characterization of a successful evidence-goal (`dynamic_goal == 0`)
run: one uncheckpointed exploratory invocation, no staging (the peak must be
the first point or the run would have crashed reading the unbound
`step_ndead`), and the dynamic invocation at the schedule's maximum. -/
theorem run_char_zero (o : Oracle) (inD : SDict) (kw : Kwargs) (fuel : Nat)
    (fs0 : FKey → Option Nat) (res : Res) (st : St)
    (h : run_dypolychord o inD 0 kw fuel fs0 = (.ok res, st)) :
    ∃ dC mv,
      res.sn = none ∧
      res.resumeNdead = none ∧
      res.dynInfo = o.allocate res.sampTot 0 ∧
      res.dynInfo.peak = 0 ∧
      ((fillDefaults inD).max_ndeadD > 0 →
        (fillDefaults inD).max_ndeadD > o.initNpoints ∧
        res.sampTot = ((fillDefaults inD).max_ndeadD : ℚ)) ∧
      (¬ (fillDefaults inD).max_ndeadD > 0 →
        ¬ (paramsOf inD kw).ninit = 0 ∧
        (paramsOf inD kw).nliveConst > (paramsOf inD kw).ninit ∧
        res.sampTot = (o.initNpoints : ℚ) * ((paramsOf inD kw).nliveConst : ℚ) /
          ((paramsOf inD kw).ninit : ℚ)) ∧
      maxVals res.dynInfo.nlivesDict = some mv ∧
      st.calls = [(1, { fillDefaults inD with
          file_root := some ((paramsOf inD kw).frIn ++ "_init"),
          nlive := some (paramsOf inD kw).ninit }), (2, dC)] ∧
      dC.nlive = some mv ∧
      dC.nlives = some res.dynInfo.nlivesDict ∧
      dC.read_resume = some false ∧
      dC.file_root = some ((paramsOf inD kw).frIn ++ "_dyn") ∧
      dC.max_ndead = (fillDefaults inD).max_ndead ∧
      dC.write_resume = (fillDefaults inD).write_resume ∧
      dC.seed = (if (fillDefaults inD).seedD ≥ 0
        then some ((fillDefaults inD).seedD + (paramsOf inD kw).inc)
        else (fillDefaults inD).seed) ∧
      st.copies = [] ∧
      st.removes = [FKey.resume ((paramsOf inD kw).frIn ++ "_init"),
        FKey.resume ((paramsOf inD kw).frIn ++ "_dyn")] ∧
      st.heap 0 = fillDefaults inD ∧
      st.next = 3 := by
  rw [run_dypolychord] at h
  rcases hS : setup inD kw fs0 with ⟨outS, stS⟩
  rw [hS] at h
  cases outS with
  | error e => simp at h
  | ok pp =>
  simp only [] at h
  have hok : (setup inD kw fs0).1 = .ok pp := by rw [hS]
  obtain ⟨hpp, hex, hnl0, hrr0⟩ := (setup_ok inD kw fs0 pp).mp hok
  subst hpp
  have h00 : stS.heap 0 = fillDefaults inD := by
    have h2 := (setup_snd inD kw fs0).1
    rw [hS] at h2
    exact h2
  have hn1 : stS.next = 1 := by
    have h2 := (setup_snd inD kw fs0).2.1
    rw [hS] at h2
    exact h2
  have hcl0 : stS.calls = [] := by
    have h2 := (setup_snd inD kw fs0).2.2.2.1
    rw [hS] at h2
    exact h2
  have hcp0 : stS.copies = [] := by
    have h2 := (setup_snd inD kw fs0).2.2.2.2.1
    rw [hS] at h2
    exact h2
  have hrm0 : stS.removes = [] := by
    have h2 := (setup_snd inD kw fs0).2.2.2.2.2
    rw [hS] at h2
    exact h2
  rcases hA : phaseA o (paramsOf inD kw) 0 fuel stS with ⟨outA, stA⟩
  rw [hA] at h
  cases outA with
  | error e => simp at h
  | ok a =>
  simp only [] at h
  obtain ⟨hout, hc, hh, hAfs, hcp, hr2, hn2⟩ :=
    phaseA_char_zero o (paramsOf inD kw) fuel stS (.ok a) stA (by rw [h00]; rfl) hA
  injection hout with ha
  subst ha
  rw [h00] at hh hc
  rw [hn1] at hh hc hn2 h
  rw [hcl0] at hc
  rw [hcp0] at hcp
  rw [hrm0] at hr2
  simp only [List.nil_append] at hc
  have hA0 : stA.heap 0 = fillDefaults inD := by
    rw [hh]
    simp [h00]
  have hA1 : stA.heap 1 = { fillDefaults inD with
      file_root := some ((paramsOf inD kw).frIn ++ "_init"),
      nlive := some (paramsOf inD kw).ninit } := by
    rw [hh]
    simp
  rcases hB : phaseB o (paramsOf inD kw) 0 ⟨none, none, 1⟩ stA with ⟨outB, stB⟩
  rw [hB] at h
  cases outB with
  | error e => simp at h
  | ok b =>
  simp only [] at h
  rw [phaseB] at hB
  simp only [hA0] at hB
  cases hsampE : sampTotE (fillDefaults inD) o.initNpoints (paramsOf inD kw).ninit
      (paramsOf inD kw).nliveConst with
  | error e =>
    simp only [hsampE] at hB
    simp at hB
  | ok sTot =>
  simp only [hsampE] at hB
  obtain ⟨hsmax, hsdiv⟩ := sampTotE_ok _ _ _ _ _ hsampE
  by_cases hpk : (o.allocate sTot 0).peak ≠ 0
  · simp only [if_pos hpk] at hB
    simp at hB
  · simp only [if_neg hpk] at hB
    have hg00 : ¬ ((0 : ℚ) ≠ 0) := by simp
    simp only [if_neg hg00] at hB
    injection hB with hb1 hb2
    injection hb1 with hb1
    subst hb1
    subst hb2
    rcases phaseC_char o (paramsOf inD kw) 0 _ _ _ (.ok res) st
        (by rw [hn2]; omega) h with ⟨e, he⟩ |
      ⟨dC, nl, hCout, hCcalls, hCcopies, hCrem, hCnext, hCheap, hCg0, hCgne,
        hnlive, hnlives, hrr, hfrD, hmnd, hwr2, hnum, hbase, hseedC, hseedImp, hmeta⟩
    · simp at he
    injection hCout with hres
    subst hres
    have hpk0 : (o.allocate sTot 0).peak = 0 := by
      by_contra hne
      exact hpk hne
    refine ⟨dC, nl, rfl, rfl, rfl, hpk0, hsmax, hsdiv, hCg0 rfl, ?_,
      ?_, hnlives, ?_, hfrD, ?_, ?_, ?_, ?_, ?_, ?_, ?_⟩
    · rw [show st.calls = stA.calls ++ [(stA.next, dC)] from hCcalls, hc, hn2]
      rfl
    · exact hnlive
    · rw [hrr]
      simp [hpk0]
    · exact hmnd.trans (congrArg SDict.max_ndead hA0)
    · exact hwr2.trans (congrArg SDict.write_resume hA0)
    · rw [show dC.seed = (if (stA.heap 1).seedD ≥ 0
          then some ((stA.heap 1).seedD + (paramsOf inD kw).inc)
          else (stA.heap 0).seed) from hseedC,
        show (stA.heap 1).seedD = (fillDefaults inD).seedD from by rw [hA1]; rfl,
        show (stA.heap 0).seed = (fillDefaults inD).seed from congrArg SDict.seed hA0]
    · rw [show st.copies = stA.copies from hCcopies, hcp]
    · rw [show st.removes = stA.removes ++
        [FKey.resume ((paramsOf inD kw).frIn ++ "_init"),
          FKey.resume ((paramsOf inD kw).frIn ++ "_dyn")] from hCrem, hr2]
      simp
    · exact ((hCheap 0 (by rw [hn2]; omega)).trans hA0 : _)
    · rw [show st.next = stA.next + 1 from hCnext, hn2]

/-! ## Error provenance: which statements can raise which exceptions -/

theorem str_app_left_cancel (s a b : String) (h : s ++ a = s ++ b) : a = b := by
  have hd : s.data ++ a.data = s.data ++ b.data := by
    have h2 := congrArg String.data h
    simpa [String.data_append] using h2
  have h2 := List.append_cancel_left hd
  cases a
  cases b
  simp only at h2
  exact congrArg String.mk h2

theorem callsAt_length (d1 : SDict) (is inc : Int) (r m : Nat) :
    (callsAt d1 is inc r m).length = m := by
  simp [callsAt]

theorem callsAt_getElem (d1 : SDict) (is inc : Int) (r m k : Nat) (hk : k < m) :
    (callsAt d1 is inc r m)[k]? = some (r, dictAtCall d1 is inc (k + 1)) := by
  simp [callsAt, List.getElem?_map, List.getElem?_range hk]

theorem callsAt_mem (d1 : SDict) (is inc : Int) (r m : Nat) (c : Nat × SDict)
    (hc : c ∈ callsAt d1 is inc r m) :
    c.1 = r ∧ ∃ j, c.2 = dictAtCall d1 is inc (j + 1) := by
  simp only [callsAt, List.mem_map, List.mem_range] at hc
  obtain ⟨j, hj, hcc⟩ := hc
  exact ⟨by rw [← hcc], j, by rw [← hcc]⟩

/-- `os.remove` raises only `FileNotFoundError`. -/
theorem osRemove_err (st : St) (k : FKey) (e : Err) (st' : St)
    (h : osRemove st k = (.error e, st')) : e = .fileNotFound := by
  obtain ⟨nx, hp, fs, cs, cps, rvs⟩ := st
  unfold osRemove at h
  simp only [] at h
  cases hfs : fs k <;> simp only [hfs] at h
  · cases h
    rfl
  · simp at h

/-- `shutil.copyfile` raises only `FileNotFoundError`. -/
theorem fsCopy_err (st : St) (src dst : FKey) (e : Err) (st' : St)
    (h : fsCopy st src dst = (.error e, st')) : e = .fileNotFound := by
  obtain ⟨nx, hp, fs, cs, cps, rvs⟩ := st
  unfold fsCopy at h
  simp only [] at h
  cases hfs : fs src <;> simp only [hfs] at h
  · cases h
    rfl
  · simp at h

/-- Lines 30-63 raise only the three usage errors, and raise them before any
sampler invocation. -/
theorem setup_err (inD : SDict) (kw : Kwargs) (fs0 : FKey → Option Nat) (e : Err) (st : St)
    (h : setup inD kw fs0 = (.error e, st)) :
    (e = .typeError ∨ e = .assertNlives ∨ e = .assertReadResume) ∧ st.calls = [] := by
  unfold setup St.hset at h
  simp only [eq_self_iff_true, ite_true] at h
  split_ifs at h <;> cases h <;> simp

/-- The deletion loop of lines 124-125 propagates only `FileNotFoundError`. -/
theorem removeAll_err (ks : List FKey) : ∀ (st : St) (e : Err) (st' : St),
    phaseB.removeAll st ks = (.error e, st') → e = .fileNotFound := by
  induction ks with
  | nil =>
    intro st e st' h
    rw [phaseB.removeAll] at h
    cases h
  | cons k ks ih =>
    intro st e st' h
    rw [phaseB.removeAll] at h
    rcases ho : osRemove st k with ⟨oOut, oSt⟩
    simp only [ho] at h
    cases oOut with
    | ok _ => exact ih _ _ _ h
    | error e2 =>
      cases h
      exact osRemove_err _ _ _ _ ho

/-- The `while add_points` loop raises only loop non-termination (modelled
`Err.fuel`) or a file-copy error. -/
theorem phaseALoop_err (o : Oracle) (p : Params) (r : Nat) :
    ∀ fuel sn outs st e stF,
      phaseALoop o p r fuel sn outs st = (.error e, stF) →
      e = .fuel ∨ e = .fileNotFound := by
  intro fuel
  induction fuel with
  | zero =>
    intro sn outs st e stF h
    rw [phaseALoop] at h
    cases h
    exact Or.inl rfl
  | succ fuel ih =>
    intro sn outs st e stF h
    rw [phaseALoop] at h
    split at h
    · cases h
    · rcases hc : fsCopy (runFunc ((st.hset r (dictStep p.initStep p.inc sn.length (st.heap r))))
          r (o.ndeadAt (sn.length + 1)))
          (.resume (p.frIn ++ "_init"))
          (.stepResume (p.frIn ++ "_init")
            ((o.ndeadAt (sn.length + 1) : Int) -
              (dictStep p.initStep p.inc sn.length (st.heap r)).nliveD)) with ⟨cOut, cSt⟩
      simp only [hc] at h
      cases cOut with
      | ok _ => exact ih _ _ _ _ _ h
      | error e2 =>
        cases h
        exact Or.inr (fsCopy_err _ _ _ _ _ hc)

/-- Phase A raises only loop non-termination or a file-copy error. -/
theorem phaseA_err (o : Oracle) (p : Params) (goal : ℚ) (fuel : Nat) (st : St) (e : Err)
    (stF : St) (h : phaseA o p goal fuel st = (.error e, stF)) :
    e = .fuel ∨ e = .fileNotFound := by
  rw [phaseA] at h
  by_cases hg : goal = 0
  · rw [if_pos hg] at h
    simp only [St.alloc] at h
    cases h
  · rw [if_neg hg] at h
    simp only [St.alloc] at h
    rcases hL : phaseALoop o p st.next fuel [] []
        { st with next := st.next + 1,
                  heap := fun q => if q = st.next then
                    phaseAInitDict (st.heap 0) (st.heap 0).file_rootD p.ninit
                    else st.heap q } with ⟨outL, stL⟩
    simp only [hL] at h
    cases outL with
    | ok pr =>
      rcases pr with ⟨sn, outs⟩
      simp only [] at h
      cases h
    | error e2 =>
      simp only [] at h
      cases h
      exact phaseALoop_err o p st.next fuel [] [] _ _ _ hL

/-- Which failed check lines 100-107 signal with which assertion. -/
theorem sampTotE_err_inv (F : SDict) (np ni nc : Int) (e : Err)
    (h : sampTotE F np ni nc = .error e) :
    (e = .assertMaxNdead → F.max_ndeadD > 0 ∧ ¬ F.max_ndeadD > np) ∧
    (e = .assertNliveConst → ¬ F.max_ndeadD > 0 ∧ ¬ ni = 0 ∧ ¬ nc > ni) := by
  unfold sampTotE at h
  split_ifs at h with h1 h2 h3 h4 <;> cases h <;> refine ⟨?_, ?_⟩ <;> intro hE <;> simp_all

/-- Phase C raises only its own exceptions, never the `samp_tot` assertions. -/
theorem phaseC_err (o : Oracle) (p : Params) (goal : ℚ) (a : AOut) (b : BOut) (stB : St)
    (e : Err) (stC : St) (h : phaseC o p goal a b stB = (.error e, stC)) :
    e = .assertSeed ∨ e = .valueError ∨ e = .nameError ∨ e = .keyError := by
  rw [phaseC] at h
  simp only [St.alloc, removeIfPresent_eq] at h
  split at h
  case h_1 e2 heq =>
    cases h
    left
    split_ifs at heq <;> simp_all
  case h_2 d heq =>
    split at h
    case h_1 e2 heq2 =>
      cases h
      right
      left
      split_ifs at heq2 with hg0
      cases hmv : maxVals b.dynInfo.nlivesDict <;> simp_all
    case h_2 nl heq2 =>
      split at h
      case h_1 e2 heq3 =>
        cases h
        right
        right
        split_ifs at heq3 with hpk
        cases hrn : b.resumeNdead with
        | none => simp_all
        | some rn =>
          cases houts : a.outsOpt with
          | none => simp_all
          | some outs =>
            cases hlk : lookupI outs rn <;> simp_all
      case h_2 u heq3 =>
        cases h

/-- If Phase B fails with one of the two `samp_tot` assertions (lines
103/107), the failure comes from the `samp_tot` computation itself and the
state is exactly the Phase-A exit state: nothing later in Phase B raises
these errors. -/
theorem phaseB_err_samp (o : Oracle) (p : Params) (goal : ℚ) (a : AOut) (st : St) (e : Err)
    (stB : St) (h : phaseB o p goal a st = (.error e, stB))
    (he : e = .assertMaxNdead ∨ e = .assertNliveConst) :
    stB = st ∧ sampTotE (st.heap 0) o.initNpoints p.ninit p.nliveConst = .error e := by
  rw [phaseB] at h
  cases hs : sampTotE (st.heap 0) o.initNpoints p.ninit p.nliveConst with
  | error e2 =>
    simp only [hs] at h
    cases h
    exact ⟨rfl, rfl⟩
  | ok sTot =>
    simp only [hs] at h
    exfalso
    by_cases hpk : (o.allocate sTot goal).peak ≠ 0
    · simp only [if_pos hpk] at h
      cases hsn : a.snOpt with
      | none =>
        simp only [hsn] at h
        cases h
        rcases he with he | he <;> simp at he
      | some sn =>
        simp only [hsn] at h
        cases hgl : (sn.filter
            (fun snd => snd - 1 < ((o.allocate sTot goal).peak : Int))).getLast? with
        | none =>
          simp only [hgl] at h
          cases h
          rcases he with he | he <;> simp at he
        | some rn =>
          simp only [hgl] at h
          rcases hc : fsCopy st (.stepResume (p.frIn ++ "_init") rn)
              (.resume (p.frIn ++ "_dyn")) with ⟨cOut, cSt⟩
          simp only [hc] at h
          cases cOut with
          | error e2 =>
            simp only [] at h
            cases h
            have hfe := fsCopy_err _ _ _ _ _ hc
            subst hfe
            rcases he with he | he <;> simp at he
          | ok _ =>
            simp only [] at h
            by_cases hgz : goal ≠ 0
            · simp only [if_pos hgz, hsn] at h
              rcases hra : phaseB.removeAll cSt
                  ((sn.dedup).map (fun snd => FKey.stepResume (p.frIn ++ "_init") snd))
                  with ⟨rOut, rSt⟩
              simp only [hra] at h
              cases rOut with
              | error e2 =>
                simp only [] at h
                cases h
                have hre := removeAll_err _ _ _ _ hra
                subst hre
                rcases he with he | he <;> simp at he
              | ok _ =>
                simp only [] at h
                simp at h
            · simp only [if_neg hgz] at h
              simp at h
    · simp only [if_neg hpk] at h
      by_cases hgz : goal ≠ 0
      · simp only [if_pos hgz] at h
        cases hsn : a.snOpt with
        | none =>
          simp only [hsn] at h
          cases h
          rcases he with he | he <;> simp at he
        | some sn =>
          simp only [hsn] at h
          rcases hra : phaseB.removeAll st
              ((sn.dedup).map (fun snd => FKey.stepResume (p.frIn ++ "_init") snd))
              with ⟨rOut, rSt⟩
          simp only [hra] at h
          cases rOut with
          | error e2 =>
            simp only [] at h
            cases h
            have hre := removeAll_err _ _ _ _ hra
            subst hre
            rcases he with he | he <;> simp at he
          | ok _ =>
            simp only [] at h
            simp at h
      · simp only [if_neg hgz] at h
        simp at h

/-! ## The claims -/

/-- C1 (corrected): in Phase B, when the allocation's importance-peak index
is nonzero, the Orchestrator selects the LAST `step_ndead` entry `snd`
satisfying `snd - 1 < peak_start_ind` — i.e. recorded dead-point count AT
MOST the peak index, not strictly below it as the spec says — and copies
that step-indexed checkpoint to `<root>_dyn.resume`; when the peak index is
0 no checkpoint is staged. -/
theorem C1_staging_rule (o : Oracle) (inD : SDict) (goal : ℚ) (kw : Kwargs) (fuel : Nat)
    (fs0 : FKey → Option Nat) (res : Res) (st : St) (hg : ¬ goal = 0)
    (h : run_dypolychord o inD goal kw fuel fs0 = (.ok res, st)) :
    ∃ n,
      res.sn = some (snAt o (paramsOf inD kw).ninit n) ∧
      (res.dynInfo.peak ≠ 0 →
        ∃ rn,
          ((snAt o (paramsOf inD kw).ninit n).filter
            (fun snd => snd - 1 < (res.dynInfo.peak : Int))).getLast? = some rn ∧
          res.resumeNdead = some rn ∧
          st.copies = copiesAt o (paramsOf inD kw).ninit
              ((paramsOf inD kw).frIn ++ "_init") (n - 1) ++
            [(FKey.stepResume ((paramsOf inD kw).frIn ++ "_init") rn,
              FKey.resume ((paramsOf inD kw).frIn ++ "_dyn"))]) ∧
      (res.dynInfo.peak = 0 →
        res.resumeNdead = none ∧
        st.copies = copiesAt o (paramsOf inD kw).ninit
          ((paramsOf inD kw).frIn ++ "_init") (n - 1)) := by
  obtain ⟨n, dC, h1, h2, h3, h4, h5, h6, h7, h8, h9, h10, h11, h12, h13, h14, h15, h16,
    h17, h18, h19, h20⟩ := run_char_ne o inD goal kw fuel fs0 res st hg h
  exact ⟨n, h4, h8, h9⟩

/-- C1 counterexample: a successful run in which the staged checkpoint's
recorded dead-point count (30, reported as `resume_ndead`) is NOT strictly
less than the peak index (30): the spec's "strictly less than the peak
index" reading is refuted (the code compares `snd - 1 < peak`). -/
theorem C1_staging_not_strict :
    (run_dypolychord oracleW {} 1 {} 10 (fun _ => none)).1 =
      .ok ⟨400, ⟨30, [(1/2, 50)]⟩, some 30, some [20, 30, 30]⟩ ∧
    (FKey.stepResume "temp_init" 30, FKey.resume "temp_dyn") ∈
      (run_dypolychord oracleW {} 1 {} 10 (fun _ => none)).2.copies ∧
    ¬ ((30 : Int) < ((30 : Nat) : Int)) :=
  ⟨by with_unfolding_all decide, by with_unfolding_all decide, by decide⟩

/-- C1 witness: `C1_staging_rule` applied to the concrete `oracleW` run. -/
theorem C1_staging_rule_witness :
    ∃ n,
      (⟨400, ⟨30, [(1/2, 50)]⟩, some 30, some [20, 30, 30]⟩ : Res).sn =
        some (snAt oracleW (paramsOf {} {}).ninit n) ∧
      ((⟨400, ⟨30, [(1/2, 50)]⟩, some 30, some [20, 30, 30]⟩ : Res).dynInfo.peak ≠ 0 →
        ∃ rn,
          ((snAt oracleW (paramsOf {} {}).ninit n).filter
            (fun snd => snd - 1 <
              ((⟨400, ⟨30, [(1/2, 50)]⟩, some 30, some [20, 30, 30]⟩ : Res).dynInfo.peak
                : Int))).getLast? = some rn ∧
          (⟨400, ⟨30, [(1/2, 50)]⟩, some 30, some [20, 30, 30]⟩ : Res).resumeNdead = some rn ∧
          (run_dypolychord oracleW {} 1 {} 10 (fun _ => none)).2.copies =
            copiesAt oracleW (paramsOf {} {}).ninit
              ((paramsOf {} {}).frIn ++ "_init") (n - 1) ++
            [(FKey.stepResume ((paramsOf {} {}).frIn ++ "_init") rn,
              FKey.resume ((paramsOf {} {}).frIn ++ "_dyn"))]) ∧
      ((⟨400, ⟨30, [(1/2, 50)]⟩, some 30, some [20, 30, 30]⟩ : Res).dynInfo.peak = 0 →
        (⟨400, ⟨30, [(1/2, 50)]⟩, some 30, some [20, 30, 30]⟩ : Res).resumeNdead = none ∧
        (run_dypolychord oracleW {} 1 {} 10 (fun _ => none)).2.copies =
          copiesAt oracleW (paramsOf {} {}).ninit
            ((paramsOf {} {}).frIn ++ "_init") (n - 1)) :=
  C1_staging_rule oracleW {} 1 {} 10 (fun _ => none)
    ⟨400, ⟨30, [(1/2, 50)]⟩, some 30, some [20, 30, 30]⟩
    (run_dypolychord oracleW {} 1 {} 10 (fun _ => none)).2
    (by norm_num)
    (Prod.ext (by with_unfolding_all decide) rfl)

/-- C2 (confirmed): in the goal-driven case the Phase-A loop stops exactly
at the first invocation count `n ≥ 2` whose recorded dead-point delta
(`run_output['ndead'] - settings_dict['nlive']`) equals the previous one,
and after that only the single Phase-C dynamic invocation (file root
`<root>_dyn`) is made — no further checkpointed invocation. -/
theorem C2_stop_rule (o : Oracle) (inD : SDict) (goal : ℚ) (kw : Kwargs) (fuel : Nat)
    (fs0 : FKey → Option Nat) (res : Res) (st : St) (hg : ¬ goal = 0)
    (h : run_dypolychord o inD goal kw fuel fs0 = (.ok res, st)) :
    ∃ n dC, 2 ≤ n ∧
      res.sn = some (snAt o (paramsOf inD kw).ninit n) ∧
      deltaAt o (paramsOf inD kw).ninit n = deltaAt o (paramsOf inD kw).ninit (n - 1) ∧
      (∀ j, 2 ≤ j → j < n →
        deltaAt o (paramsOf inD kw).ninit j ≠ deltaAt o (paramsOf inD kw).ninit (j - 1)) ∧
      st.calls = callsAt (phaseAInitDict (fillDefaults inD) (paramsOf inD kw).frIn
        (paramsOf inD kw).ninit) (paramsOf inD kw).initStep (paramsOf inD kw).inc 1 n
        ++ [(2, dC)] ∧
      (callsAt (phaseAInitDict (fillDefaults inD) (paramsOf inD kw).frIn
        (paramsOf inD kw).ninit) (paramsOf inD kw).initStep (paramsOf inD kw).inc 1 n).length
        = n ∧
      dC.file_root = some ((paramsOf inD kw).frIn ++ "_dyn") := by
  obtain ⟨n, dC, h1, h2, h3, h4, h5, h6, h7, h8, h9, h10, h11, h12, h13, h14, h15, h16,
    h17, h18, h19, h20⟩ := run_char_ne o inD goal kw fuel fs0 res st hg h
  exact ⟨n, dC, h1, h4, h2, h3, h10, callsAt_length _ _ _ _ _, h14⟩

/-- C2 witness: `C2_stop_rule` applied to the concrete `oracleW` run, whose
deltas are 20, 30, 30 (stop at the third invocation). -/
theorem C2_stop_rule_witness :
    ∃ n dC, 2 ≤ n ∧
      (⟨400, ⟨30, [(1/2, 50)]⟩, some 30, some [20, 30, 30]⟩ : Res).sn =
        some (snAt oracleW (paramsOf {} {}).ninit n) ∧
      deltaAt oracleW (paramsOf {} {}).ninit n =
        deltaAt oracleW (paramsOf {} {}).ninit (n - 1) ∧
      (∀ j, 2 ≤ j → j < n →
        deltaAt oracleW (paramsOf {} {}).ninit j ≠
          deltaAt oracleW (paramsOf {} {}).ninit (j - 1)) ∧
      (run_dypolychord oracleW {} 1 {} 10 (fun _ => none)).2.calls =
        callsAt (phaseAInitDict (fillDefaults {}) (paramsOf {} {}).frIn
          (paramsOf {} {}).ninit) (paramsOf {} {}).initStep (paramsOf {} {}).inc 1 n
        ++ [(2, dC)] ∧
      (callsAt (phaseAInitDict (fillDefaults {}) (paramsOf {} {}).frIn
        (paramsOf {} {}).ninit) (paramsOf {} {}).initStep (paramsOf {} {}).inc 1 n).length
        = n ∧
      dC.file_root = some ((paramsOf {} {}).frIn ++ "_dyn") :=
  C2_stop_rule oracleW {} 1 {} 10 (fun _ => none)
    ⟨400, ⟨30, [(1/2, 50)]⟩, some 30, some [20, 30, 30]⟩
    (run_dypolychord oracleW {} 1 {} 10 (fun _ => none)).2
    (by norm_num)
    (Prod.ext (by with_unfolding_all decide) rfl)

/-- C3 (confirmed): in the goal-driven case the k-th Phase-A invocation
(k = 1, 2, ...) is made with `write_resume = True` and
`max_ndead = k * init_step` — `(len(step_ndead) + 1) * init_step` with
`k - 1` steps completed so far. -/
theorem C3_phaseA_caps (o : Oracle) (inD : SDict) (goal : ℚ) (kw : Kwargs) (fuel : Nat)
    (fs0 : FKey → Option Nat) (res : Res) (st : St) (hg : ¬ goal = 0)
    (h : run_dypolychord o inD goal kw fuel fs0 = (.ok res, st)) :
    ∃ n dC, 2 ≤ n ∧
      st.calls = callsAt (phaseAInitDict (fillDefaults inD) (paramsOf inD kw).frIn
        (paramsOf inD kw).ninit) (paramsOf inD kw).initStep (paramsOf inD kw).inc 1 n
        ++ [(2, dC)] ∧
      ∀ k, 1 ≤ k → k ≤ n →
        st.calls[k - 1]? = some (1, dictAtCall (phaseAInitDict (fillDefaults inD)
          (paramsOf inD kw).frIn (paramsOf inD kw).ninit)
          (paramsOf inD kw).initStep (paramsOf inD kw).inc k) ∧
        (dictAtCall (phaseAInitDict (fillDefaults inD) (paramsOf inD kw).frIn
          (paramsOf inD kw).ninit) (paramsOf inD kw).initStep (paramsOf inD kw).inc
          k).write_resume = some true ∧
        (dictAtCall (phaseAInitDict (fillDefaults inD) (paramsOf inD kw).frIn
          (paramsOf inD kw).ninit) (paramsOf inD kw).initStep (paramsOf inD kw).inc
          k).max_ndead = some ((k : Int) * (paramsOf inD kw).initStep) := by
  obtain ⟨n, dC, h1, h2, h3, h4, h5, h6, h7, h8, h9, h10, h11, h12, h13, h14, h15, h16,
    h17, h18, h19, h20⟩ := run_char_ne o inD goal kw fuel fs0 res st hg h
  refine ⟨n, dC, h1, h10, ?_⟩
  intro k hk1 hkn
  obtain ⟨j, rfl⟩ : ∃ j, k = j + 1 := ⟨k - 1, by omega⟩
  refine ⟨?_, ?_, ?_⟩
  · rw [h10]
    rw [List.getElem?_append_left (by rw [callsAt_length]; omega)]
    simpa using callsAt_getElem _ _ _ _ _ j (by omega)
  · rw [dictAtCall_write_resume]
    rfl
  · rw [dictAtCall_max_ndead]
    norm_num

/-- C3 witness: `C3_phaseA_caps` applied to the concrete `oracleW` run
(three checkpointed invocations with caps 10, 20, 30 at `init_step = 10`). -/
theorem C3_phaseA_caps_witness :
    ∃ n dC, 2 ≤ n ∧
      (run_dypolychord oracleW {} 1 {} 10 (fun _ => none)).2.calls =
        callsAt (phaseAInitDict (fillDefaults {}) (paramsOf {} {}).frIn
          (paramsOf {} {}).ninit) (paramsOf {} {}).initStep (paramsOf {} {}).inc 1 n
        ++ [(2, dC)] ∧
      ∀ k, 1 ≤ k → k ≤ n →
        (run_dypolychord oracleW {} 1 {} 10 (fun _ => none)).2.calls[k - 1]? =
          some (1, dictAtCall (phaseAInitDict (fillDefaults {})
            (paramsOf {} {}).frIn (paramsOf {} {}).ninit)
            (paramsOf {} {}).initStep (paramsOf {} {}).inc k) ∧
        (dictAtCall (phaseAInitDict (fillDefaults {}) (paramsOf {} {}).frIn
          (paramsOf {} {}).ninit) (paramsOf {} {}).initStep (paramsOf {} {}).inc
          k).write_resume = some true ∧
        (dictAtCall (phaseAInitDict (fillDefaults {}) (paramsOf {} {}).frIn
          (paramsOf {} {}).ninit) (paramsOf {} {}).initStep (paramsOf {} {}).inc
          k).max_ndead = some ((k : Int) * (paramsOf {} {}).initStep) :=
  C3_phaseA_caps oracleW {} 1 {} 10 (fun _ => none)
    ⟨400, ⟨30, [(1/2, 50)]⟩, some 30, some [20, 30, 30]⟩
    (run_dypolychord oracleW {} 1 {} 10 (fun _ => none)).2
    (by norm_num)
    (Prod.ext (by with_unfolding_all decide) rfl)

/-- C4 (corrected): the Phase-C dynamic-run configuration has `nlive` equal
to the maximum of the allocation schedule when `dynamic_goal == 0` and to
`ninit` otherwise, carries the full schedule in `nlives`, has `read_resume`
set exactly when a checkpoint was staged (nonzero peak index), but its
`max_ndead` is INHERITED from the caller's configuration (the deep copy of
line 129 keeps it) — it is unbounded (-1) only when the caller left
`max_ndead` unset, not unconditionally as the spec says. -/
theorem C4_dyn_config (o : Oracle) (inD : SDict) (goal : ℚ) (kw : Kwargs) (fuel : Nat)
    (fs0 : FKey → Option Nat) (res : Res) (st : St)
    (h : run_dypolychord o inD goal kw fuel fs0 = (.ok res, st)) :
    ∃ dC,
      st.calls.getLast? = some (2, dC) ∧
      (goal = 0 → ∃ mv, maxVals res.dynInfo.nlivesDict = some mv ∧ dC.nlive = some mv) ∧
      (¬ goal = 0 → dC.nlive = some (paramsOf inD kw).ninit) ∧
      dC.nlives = some res.dynInfo.nlivesDict ∧
      dC.read_resume = some (decide (res.dynInfo.peak ≠ 0)) ∧
      (res.dynInfo.peak ≠ 0 ↔ res.resumeNdead ≠ none) ∧
      dC.max_ndead = (fillDefaults inD).max_ndead := by
  by_cases hg : goal = 0
  · subst hg
    obtain ⟨dC, mv, h1, h2, h3, h4, h5, h6, h7, h8, h9, h10, h11, h12, h13, h14, h15,
      h16, h17, h18, h19⟩ := run_char_zero o inD kw fuel fs0 res st h
    refine ⟨dC, ?_, ?_, ?_, h10, ?_, ?_, h13⟩
    · rw [h8]
      rfl
    · intro _
      exact ⟨mv, h7, h9⟩
    · intro hgz
      exact absurd rfl hgz
    · rw [h11, h4]
      simp
    · rw [h4, h2]
      simp
  · obtain ⟨n, dC, h1, h2, h3, h4, h5, h6, h7, h8, h9, h10, h11, h12, h13, h14, h15, h16,
      h17, h18, h19, h20⟩ := run_char_ne o inD goal kw fuel fs0 res st hg h
    refine ⟨dC, ?_, ?_, fun _ => h11, h12, h13, ?_, h15⟩
    · rw [h10]
      exact List.getLast?_concat _
    · intro hg0
      exact absurd hg0 hg
    · constructor
      · intro hne
        obtain ⟨rn, hfil, hrn, hcp⟩ := h8 hne
        rw [hrn]
        simp
      · intro hrne
        by_cases hp : res.dynInfo.peak = 0
        · exact absurd (h9 hp).1 hrne
        · exact hp

/-- C4 counterexample: with a caller-supplied `max_ndead = 50` the single
dynamic-run invocation is made with `max_ndead = 50`, not with the
unbounded sentinel -1: the dynamic run's dead-point cap is not
unconditionally unbounded. -/
theorem C4_max_ndead_inherited :
    (run_dypolychord oracleW { max_ndead := some 50 } 1 {} 10 (fun _ => none)).1.isOk = true ∧
    ((run_dypolychord oracleW { max_ndead := some 50 } 1 {} 10
      (fun _ => none)).2.calls.getLast?.map (fun c => c.2.max_ndead)) = some (some 50) ∧
    ¬ ((run_dypolychord oracleW { max_ndead := some 50 } 1 {} 10
      (fun _ => none)).2.calls.getLast?.map (fun c => c.2.max_ndead)) = some (some (-1)) :=
  ⟨by with_unfolding_all decide, by with_unfolding_all decide, by with_unfolding_all decide⟩

/-- C4 witness: `C4_dyn_config` applied to the concrete `oracleW` run. -/
theorem C4_dyn_config_witness :
    ∃ dC,
      (run_dypolychord oracleW {} 1 {} 10 (fun _ => none)).2.calls.getLast? = some (2, dC) ∧
      ((1 : ℚ) = 0 → ∃ mv, maxVals
        (⟨400, ⟨30, [(1/2, 50)]⟩, some 30, some [20, 30, 30]⟩ : Res).dynInfo.nlivesDict =
          some mv ∧ dC.nlive = some mv) ∧
      (¬ (1 : ℚ) = 0 → dC.nlive = some (paramsOf {} {}).ninit) ∧
      dC.nlives = some
        (⟨400, ⟨30, [(1/2, 50)]⟩, some 30, some [20, 30, 30]⟩ : Res).dynInfo.nlivesDict ∧
      dC.read_resume = some (decide
        ((⟨400, ⟨30, [(1/2, 50)]⟩, some 30, some [20, 30, 30]⟩ : Res).dynInfo.peak ≠ 0)) ∧
      ((⟨400, ⟨30, [(1/2, 50)]⟩, some 30, some [20, 30, 30]⟩ : Res).dynInfo.peak ≠ 0 ↔
        (⟨400, ⟨30, [(1/2, 50)]⟩, some 30, some [20, 30, 30]⟩ : Res).resumeNdead ≠ none) ∧
      dC.max_ndead = (fillDefaults {}).max_ndead :=
  C4_dyn_config oracleW {} 1 {} 10 (fun _ => none)
    ⟨400, ⟨30, [(1/2, 50)]⟩, some 30, some [20, 30, 30]⟩
    (run_dypolychord oracleW {} 1 {} 10 (fun _ => none)).2
    (Prod.ext (by with_unfolding_all decide) rfl)

/-- C5 (confirmed): the total target sample count is the caller's
`max_ndead` when positive (validated to exceed the exploratory run's point
count, else `assertMaxNdead`), otherwise
`init_npoints * (nlive_const / ninit)` (requiring `nlive_const > ninit`,
else `assertNliveConst`); and when either assertion fails, the failure
state records at least one sampler invocation, all of them on the
`<root>_init` exploratory configuration — i.e. after Phase A and before the
Phase-C dynamic invocation. -/
theorem C5_samp_tot (o : Oracle) (inD : SDict) (goal : ℚ) (kw : Kwargs) (fuel : Nat)
    (fs0 : FKey → Option Nat) (out : Except Err Res) (st : St)
    (h : run_dypolychord o inD goal kw fuel fs0 = (out, st)) :
    (∀ res, out = .ok res →
      ((fillDefaults inD).max_ndeadD > 0 →
        (fillDefaults inD).max_ndeadD > o.initNpoints ∧
        res.sampTot = ((fillDefaults inD).max_ndeadD : ℚ)) ∧
      (¬ (fillDefaults inD).max_ndeadD > 0 →
        ¬ (paramsOf inD kw).ninit = 0 ∧
        (paramsOf inD kw).nliveConst > (paramsOf inD kw).ninit ∧
        res.sampTot = (o.initNpoints : ℚ) * ((paramsOf inD kw).nliveConst : ℚ) /
          ((paramsOf inD kw).ninit : ℚ))) ∧
    (∀ e, out = .error e → (e = .assertMaxNdead ∨ e = .assertNliveConst) →
      (e = .assertMaxNdead → (fillDefaults inD).max_ndeadD > 0 ∧
        ¬ (fillDefaults inD).max_ndeadD > o.initNpoints) ∧
      (e = .assertNliveConst → ¬ (fillDefaults inD).max_ndeadD > 0 ∧
        ¬ (paramsOf inD kw).nliveConst > (paramsOf inD kw).ninit) ∧
      st.calls ≠ [] ∧
      ∀ c ∈ st.calls, c.2.file_root = some ((paramsOf inD kw).frIn ++ "_init")) := by
  constructor
  · intro res hres
    rw [hres] at h
    by_cases hg : goal = 0
    · subst hg
      obtain ⟨dC, mv, h1, h2, h3, h4, h5, h6, h7, h8, h9, h10, h11, h12, h13, h14, h15,
        h16, h17, h18, h19⟩ := run_char_zero o inD kw fuel fs0 res st h
      exact ⟨h5, h6⟩
    · obtain ⟨n, dC, h1, h2, h3, h4, h5, h6, h7, h8, h9, h10, h11, h12, h13, h14, h15, h16,
        h17, h18, h19, h20⟩ := run_char_ne o inD goal kw fuel fs0 res st hg h
      exact ⟨h6, h7⟩
  · intro e hres he
    rw [hres] at h
    rw [run_dypolychord] at h
    rcases hS : setup inD kw fs0 with ⟨outS, stS⟩
    rw [hS] at h
    cases outS with
    | error e2 =>
      simp only [] at h
      cases h
      obtain ⟨h3, _⟩ := setup_err inD kw fs0 _ _ hS
      rcases h3 with h3 | h3 | h3 <;> subst h3 <;> rcases he with he | he <;> simp at he
    | ok pp =>
      simp only [] at h
      have hok : (setup inD kw fs0).1 = .ok pp := by rw [hS]
      obtain ⟨hpp, hex, hnl0, hrr0⟩ := (setup_ok inD kw fs0 pp).mp hok
      subst hpp
      have h00 : stS.heap 0 = fillDefaults inD := by
        have h2 := (setup_snd inD kw fs0).1
        rw [hS] at h2
        exact h2
      have hn1 : stS.next = 1 := by
        have h2 := (setup_snd inD kw fs0).2.1
        rw [hS] at h2
        exact h2
      have hcl0 : stS.calls = [] := by
        have h2 := (setup_snd inD kw fs0).2.2.2.1
        rw [hS] at h2
        exact h2
      rcases hA : phaseA o (paramsOf inD kw) goal fuel stS with ⟨outA, stA⟩
      rw [hA] at h
      cases outA with
      | error e2 =>
        simp only [] at h
        cases h
        rcases phaseA_err o _ goal fuel stS _ _ hA with h3 | h3 <;>
          subst h3 <;> rcases he with he | he <;> simp at he
      | ok a =>
        simp only [] at h
        have hA0 : stA.heap 0 = fillDefaults inD ∧ stA.calls ≠ [] ∧
            ∀ c ∈ stA.calls, c.2.file_root = some ((paramsOf inD kw).frIn ++ "_init") := by
          by_cases hgz : goal = 0
          · rw [hgz] at hA
            obtain ⟨houtA, hcA, hhA, _, _, _, _⟩ :=
              phaseA_char_zero o (paramsOf inD kw) fuel stS _ _ (by rw [h00]; rfl) hA
            refine ⟨?_, ?_, ?_⟩
            · rw [hhA, hn1]
              simp [h00]
            · rw [hcA, hcl0]
              simp
            · intro c hc
              rw [hcA, hcl0] at hc
              simp only [List.nil_append, List.mem_singleton] at hc
              rw [hc]
          · rcases phaseA_char_ne o (paramsOf inD kw) goal fuel stS _ _ hgz
                (by rw [h00]; rfl) hA with ⟨e3, he3⟩ |
              ⟨n, outs2, h2n, hstopn, hminn, hout, hh, hfs, hc, hcp, hr2, hn2⟩
            · simp at he3
            refine ⟨?_, ?_, ?_⟩
            · rw [hh]
              have : ¬ (0 : Nat) = stS.next := by omega
              simp [this, h00]
            · rw [hc, hcl0]
              intro hEq
              have hlen := congrArg List.length hEq
              rw [List.nil_append, callsAt_length] at hlen
              simp at hlen
              omega
            · intro c hc2
              rw [hc, hcl0] at hc2
              simp only [List.nil_append] at hc2
              obtain ⟨h1c, j, h2c⟩ := callsAt_mem _ _ _ _ _ _ hc2
              rw [h2c, dictAtCall_file_root]
              rfl
        rcases hB : phaseB o (paramsOf inD kw) goal a stA with ⟨outB, stB⟩
        rw [hB] at h
        cases outB with
        | error e2 =>
          simp only [] at h
          cases h
          obtain ⟨hstB, hsamp⟩ := phaseB_err_samp o _ goal a stA _ _ hB he
          subst hstB
          rw [hA0.1] at hsamp
          obtain ⟨hmx, hnc⟩ := sampTotE_err_inv _ _ _ _ _ hsamp
          exact ⟨hmx, fun hE => ⟨(hnc hE).1, (hnc hE).2.2⟩, hA0.2.1, hA0.2.2⟩
        | ok b =>
          simp only [] at h
          rcases phaseC_err o _ goal a b stB _ _ h with h3 | h3 | h3 | h3 <;>
            subst h3 <;> rcases he with he | he <;> simp at he

/-- C5 witness: `C5_samp_tot` applied to a concrete run whose caller sets
`max_ndead = 30` while the exploratory run has 40 points, so the run fails
with `assertMaxNdead` after three exploratory invocations. -/
theorem C5_samp_tot_witness :
    (∀ res, (Except.error Err.assertMaxNdead : Except Err Res) = .ok res →
      ((fillDefaults { max_ndead := some 30 }).max_ndeadD > 0 →
        (fillDefaults { max_ndead := some 30 }).max_ndeadD > oracleW.initNpoints ∧
        res.sampTot = ((fillDefaults { max_ndead := some 30 }).max_ndeadD : ℚ)) ∧
      (¬ (fillDefaults { max_ndead := some 30 }).max_ndeadD > 0 →
        ¬ (paramsOf { max_ndead := some 30 } {}).ninit = 0 ∧
        (paramsOf { max_ndead := some 30 } {}).nliveConst >
          (paramsOf { max_ndead := some 30 } {}).ninit ∧
        res.sampTot = (oracleW.initNpoints : ℚ) *
          ((paramsOf { max_ndead := some 30 } {}).nliveConst : ℚ) /
          ((paramsOf { max_ndead := some 30 } {}).ninit : ℚ))) ∧
    (∀ e, (Except.error Err.assertMaxNdead : Except Err Res) = .error e →
      (e = .assertMaxNdead ∨ e = .assertNliveConst) →
      (e = .assertMaxNdead → (fillDefaults { max_ndead := some 30 }).max_ndeadD > 0 ∧
        ¬ (fillDefaults { max_ndead := some 30 }).max_ndeadD > oracleW.initNpoints) ∧
      (e = .assertNliveConst → ¬ (fillDefaults { max_ndead := some 30 }).max_ndeadD > 0 ∧
        ¬ (paramsOf { max_ndead := some 30 } {}).nliveConst >
          (paramsOf { max_ndead := some 30 } {}).ninit) ∧
      (run_dypolychord oracleW { max_ndead := some 30 } 1 {} 10 (fun _ => none)).2.calls
        ≠ [] ∧
      ∀ c ∈ (run_dypolychord oracleW { max_ndead := some 30 } 1 {} 10
          (fun _ => none)).2.calls,
        c.2.file_root = some ((paramsOf { max_ndead := some 30 } {}).frIn ++ "_init")) :=
  C5_samp_tot oracleW { max_ndead := some 30 } 1 {} 10 (fun _ => none)
    (.error .assertMaxNdead)
    (run_dypolychord oracleW { max_ndead := some 30 } 1 {} 10 (fun _ => none)).2
    (Prod.ext (by with_unfolding_all decide) rfl)

/-- C6 (confirmed, goal-driven case): the k-th Phase-A invocation carries
seed `seedAtCall s0 inc k` where `s0` is the caller's (default-filled) seed
— each step adds `seed_increment` exactly when the current seed is
non-negative, so a negative input seed is never modified — and the dynamic
run's seed continues by one further increment from the last Phase-A seed
(falling back to the caller's seed when seeds are untracked). -/
theorem C6_seeds (o : Oracle) (inD : SDict) (goal : ℚ) (kw : Kwargs) (fuel : Nat)
    (fs0 : FKey → Option Nat) (res : Res) (st : St) (hg : ¬ goal = 0)
    (h : run_dypolychord o inD goal kw fuel fs0 = (.ok res, st)) :
    ∃ n dC, 2 ≤ n ∧
      st.calls = callsAt (phaseAInitDict (fillDefaults inD) (paramsOf inD kw).frIn
        (paramsOf inD kw).ninit) (paramsOf inD kw).initStep (paramsOf inD kw).inc 1 n
        ++ [(2, dC)] ∧
      (∀ k, k < n → (st.calls[k]?).map (fun c => c.2.seed) =
        some (some (seedAtCall (fillDefaults inD).seedD (paramsOf inD kw).inc (k + 1)))) ∧
      (∀ k, seedAtCall (fillDefaults inD).seedD (paramsOf inD kw).inc (k + 1) =
        (if seedAtCall (fillDefaults inD).seedD (paramsOf inD kw).inc k ≥ 0
          then seedAtCall (fillDefaults inD).seedD (paramsOf inD kw).inc k +
            (paramsOf inD kw).inc
          else seedAtCall (fillDefaults inD).seedD (paramsOf inD kw).inc k)) ∧
      ((fillDefaults inD).seedD < 0 →
        ∀ k, seedAtCall (fillDefaults inD).seedD (paramsOf inD kw).inc k =
          (fillDefaults inD).seedD) ∧
      dC.seed = (if seedAtCall (fillDefaults inD).seedD (paramsOf inD kw).inc n ≥ 0
        then some (seedAtCall (fillDefaults inD).seedD (paramsOf inD kw).inc n +
          (paramsOf inD kw).inc)
        else (fillDefaults inD).seed) ∧
      ((fillDefaults inD).seedD < 0 → dC.seed = (fillDefaults inD).seed) := by
  obtain ⟨n, dC, h1, h2, h3, h4, h5, h6, h7, h8, h9, h10, h11, h12, h13, h14, h15, h16,
    h17, h18, h19, h20⟩ := run_char_ne o inD goal kw fuel fs0 res st hg h
  refine ⟨n, dC, h1, h10, ?_, fun k => rfl, fun hneg k => seedAtCall_neg _ _ hneg k,
    h17, ?_⟩
  · intro k hk
    rw [h10, List.getElem?_append_left (by rw [callsAt_length]; omega),
      callsAt_getElem _ _ _ _ _ k hk]
    show some ((dictAtCall (phaseAInitDict (fillDefaults inD) (paramsOf inD kw).frIn
      (paramsOf inD kw).ninit) (paramsOf inD kw).initStep (paramsOf inD kw).inc
      (k + 1)).seed) = _
    rw [dictAtCall_seed _ _ _ ((fillDefaults inD).seedD) rfl]
  · intro hneg
    rw [h17, seedAtCall_neg _ _ hneg, if_neg (by omega)]

/-- C6 witness: `C6_seeds` applied to the concrete `oracleW` run, whose
caller leaves `seed` unset (default -1 < 0, never modified). -/
theorem C6_seeds_witness :
    ∃ n dC, 2 ≤ n ∧
      (run_dypolychord oracleW {} 1 {} 10 (fun _ => none)).2.calls =
        callsAt (phaseAInitDict (fillDefaults {}) (paramsOf {} {}).frIn
          (paramsOf {} {}).ninit) (paramsOf {} {}).initStep (paramsOf {} {}).inc 1 n
        ++ [(2, dC)] ∧
      (∀ k, k < n →
        ((run_dypolychord oracleW {} 1 {} 10 (fun _ => none)).2.calls[k]?).map
          (fun c => c.2.seed) =
        some (some (seedAtCall (fillDefaults {}).seedD (paramsOf {} {}).inc (k + 1)))) ∧
      (∀ k, seedAtCall (fillDefaults {}).seedD (paramsOf {} {}).inc (k + 1) =
        (if seedAtCall (fillDefaults {}).seedD (paramsOf {} {}).inc k ≥ 0
          then seedAtCall (fillDefaults {}).seedD (paramsOf {} {}).inc k +
            (paramsOf {} {}).inc
          else seedAtCall (fillDefaults {}).seedD (paramsOf {} {}).inc k)) ∧
      ((fillDefaults {}).seedD < 0 →
        ∀ k, seedAtCall (fillDefaults {}).seedD (paramsOf {} {}).inc k =
          (fillDefaults {}).seedD) ∧
      dC.seed = (if seedAtCall (fillDefaults {}).seedD (paramsOf {} {}).inc n ≥ 0
        then some (seedAtCall (fillDefaults {}).seedD (paramsOf {} {}).inc n +
          (paramsOf {} {}).inc)
        else (fillDefaults {}).seed) ∧
      ((fillDefaults {}).seedD < 0 → dC.seed = (fillDefaults {}).seed) :=
  C6_seeds oracleW {} 1 {} 10 (fun _ => none)
    ⟨400, ⟨30, [(1/2, 50)]⟩, some 30, some [20, 30, 30]⟩
    (run_dypolychord oracleW {} 1 {} 10 (fun _ => none)).2
    (by norm_num)
    (Prod.ext (by with_unfolding_all decide) rfl)

/-- C7 (confirmed): for every `dynamic_goal`, an unrecognized keyword
option, a pre-set non-empty `nlives` schedule, or a requested
`read_resume` makes `run_dypolychord` fail with the corresponding usage
error (`TypeError`, the `nlives` assertion, or the `read_resume`
assertion) before any sampler invocation (empty call trace). -/
theorem C7_usage_errors (o : Oracle) (inD : SDict) (goal : ℚ) (kw : Kwargs) (fuel : Nat)
    (fs0 : FKey → Option Nat)
    (he : kw.extra ≠ [] ∨ (fillDefaults inD).nlivesD ≠ [] ∨
      (fillDefaults inD).read_resumeD = true) :
    ∃ e st, run_dypolychord o inD goal kw fuel fs0 = (.error e, st) ∧
      (e = .typeError ∨ e = .assertNlives ∨ e = .assertReadResume) ∧
      st.calls = [] ∧
      (kw.extra ≠ [] → e = .typeError) ∧
      (kw.extra = [] → (fillDefaults inD).nlivesD ≠ [] → e = .assertNlives) ∧
      (kw.extra = [] → (fillDefaults inD).nlivesD = [] → e = .assertReadResume) := by
  have hcalls : (setup inD kw fs0).2.calls = [] := (setup_snd inD kw fs0).2.2.2.1
  have hrun : ∀ eX, (setup inD kw fs0).1 = .error eX →
      run_dypolychord o inD goal kw fuel fs0 = (.error eX, (setup inD kw fs0).2) := by
    intro eX hX
    rw [run_dypolychord]
    rcases hS : setup inD kw fs0 with ⟨outS, stS⟩
    rw [hS] at hX
    simp only [] at hX
    subst hX
    rfl
  by_cases h1 : kw.extra = []
  · by_cases h2 : (fillDefaults inD).nlivesD = []
    · have h3 : (fillDefaults inD).read_resumeD = true := by
        rcases he with he | he | he
        · exact absurd h1 he
        · exact absurd h2 he
        · exact he
      have hs : (setup inD kw fs0).1 = .error .assertReadResume := by
        unfold setup St.hset
        simp only [eq_self_iff_true, ite_true]
        rw [if_neg (by simp [h1]), if_neg (by simp [h2]), if_pos h3]
      exact ⟨.assertReadResume, (setup inD kw fs0).2, hrun _ hs, Or.inr (Or.inr rfl),
        hcalls, fun hE => absurd h1 hE, fun _ hE => absurd h2 hE, fun _ _ => rfl⟩
    · have hs : (setup inD kw fs0).1 = .error .assertNlives := by
        unfold setup St.hset
        simp only [eq_self_iff_true, ite_true]
        rw [if_neg (by simp [h1]), if_pos h2]
      exact ⟨.assertNlives, (setup inD kw fs0).2, hrun _ hs, Or.inr (Or.inl rfl),
        hcalls, fun hE => absurd h1 hE, fun _ _ => rfl, fun _ hE => absurd hE h2⟩
  · have hs : (setup inD kw fs0).1 = .error .typeError := by
      unfold setup St.hset
      simp only [eq_self_iff_true, ite_true]
      rw [if_pos h1]
    exact ⟨.typeError, (setup inD kw fs0).2, hrun _ hs, Or.inl rfl,
      hcalls, fun _ => rfl, fun hE => absurd hE h1, fun hE => absurd hE h1⟩

/-- C7 witness: `C7_usage_errors` applied with an unrecognized keyword. -/
theorem C7_usage_errors_witness :
    ∃ e st, run_dypolychord oracleW {} 1 { extra := ["unexpected"] } 10 (fun _ => none) =
        (.error e, st) ∧
      (e = .typeError ∨ e = .assertNlives ∨ e = .assertReadResume) ∧
      st.calls = [] ∧
      ((Kwargs.mk none none none none none none ["unexpected"]).extra ≠ [] →
        e = .typeError) ∧
      ((Kwargs.mk none none none none none none ["unexpected"]).extra = [] →
        (fillDefaults {}).nlivesD ≠ [] → e = .assertNlives) ∧
      ((Kwargs.mk none none none none none none ["unexpected"]).extra = [] →
        (fillDefaults {}).nlivesD = [] → e = .assertReadResume) :=
  C7_usage_errors oracleW {} 1 { extra := ["unexpected"] } 10 (fun _ => none)
    (Or.inl (by decide))

/-- C8 (confirmed, goal-driven case): a successful run's `os.remove` trace
is duplicate-free — the Phase-B deletion list is de-duplicated by
dead-point count before removal, and the two Phase-C targets
(`_init.resume`, `_dyn.resume`) are distinct paths never removed in Phase
B — and the Phase-C tolerant removal turns a missing file into success
where a bare `os.remove` would raise `FileNotFoundError` (the only I/O
error `os.remove` raises in this model; any other would propagate, as
`removeIfPresent` re-raises every non-`fileNotFound` error). -/
theorem C8_cleanup (o : Oracle) (inD : SDict) (goal : ℚ) (kw : Kwargs) (fuel : Nat)
    (fs0 : FKey → Option Nat) (res : Res) (st : St) (hg : ¬ goal = 0)
    (h : run_dypolychord o inD goal kw fuel fs0 = (.ok res, st)) :
    st.removes.Nodup ∧
    (∀ stX k, stX.fs k = none →
      (removeIfPresent stX k).1 = .ok () ∧ (osRemove stX k).1 = .error .fileNotFound) := by
  obtain ⟨n, dC, h1, h2, h3, h4, h5, h6, h7, h8, h9, h10, h11, h12, h13, h14, h15, h16,
    h17, h18, h19, h20⟩ := run_char_ne o inD goal kw fuel fs0 res st hg h
  constructor
  · rw [h18]
    refine List.Nodup.append ?_ ?_ ?_
    · exact (List.nodup_dedup _).map (fun x y hxy => by simpa using hxy)
    · refine List.nodup_cons.mpr ⟨?_, List.nodup_singleton _⟩
      intro hmem
      simp only [List.mem_singleton] at hmem
      injection hmem with hmem
      have h2s := str_app_left_cancel _ _ _ hmem
      exact absurd h2s (by decide)
    · intro x hx hy
      simp only [List.mem_map] at hx
      obtain ⟨snd, hsnd, hxe⟩ := hx
      rw [← hxe] at hy
      simp only [List.mem_cons, List.not_mem_nil, or_false] at hy
      rcases hy with hy | hy <;> exact FKey.noConfusion hy
  · intro stX k hk
    refine ⟨?_, osRemove_missing stX k hk⟩
    rw [removeIfPresent_eq]

/-- C8 witness: `C8_cleanup` applied to the concrete `oracleW` run (the
deltas contain the duplicate 30, deleted only once). -/
theorem C8_cleanup_witness :
    (run_dypolychord oracleW {} 1 {} 10 (fun _ => none)).2.removes.Nodup ∧
    (∀ stX k, stX.fs k = none →
      (removeIfPresent stX k).1 = .ok () ∧ (osRemove stX k).1 = .error .fileNotFound) :=
  C8_cleanup oracleW {} 1 {} 10 (fun _ => none)
    ⟨400, ⟨30, [(1/2, 50)]⟩, some 30, some [20, 30, 30]⟩
    (run_dypolychord oracleW {} 1 {} 10 (fun _ => none)).2
    (by norm_num)
    (Prod.ext (by with_unfolding_all decide) rfl)

/-- C9 (corrected): in the goal-driven case Phase A does NOT create a fresh
configuration record per invocation — all `n` exploratory invocations pass
the SAME dict object (reference 1), mutated in place between invocations
(the snapshot of the first invocation has `read_resume = False`, that of
the second `read_resume = True`); only the Phase-C dynamic invocation gets
a freshly created record (reference 2). -/
theorem C9_config_reuse (o : Oracle) (inD : SDict) (goal : ℚ) (kw : Kwargs) (fuel : Nat)
    (fs0 : FKey → Option Nat) (res : Res) (st : St) (hg : ¬ goal = 0)
    (h : run_dypolychord o inD goal kw fuel fs0 = (.ok res, st)) :
    ∃ n dC, 2 ≤ n ∧
      st.calls = callsAt (phaseAInitDict (fillDefaults inD) (paramsOf inD kw).frIn
        (paramsOf inD kw).ninit) (paramsOf inD kw).initStep (paramsOf inD kw).inc 1 n
        ++ [(2, dC)] ∧
      (∀ k, k < n → (st.calls[k]?).map Prod.fst = some 1) ∧
      st.calls[n]? = some (2, dC) ∧
      (st.calls[0]?).map (fun c => c.2.read_resume) = some (some false) ∧
      (st.calls[1]?).map (fun c => c.2.read_resume) = some (some true) := by
  obtain ⟨n, dC, h1, h2, h3, h4, h5, h6, h7, h8, h9, h10, h11, h12, h13, h14, h15, h16,
    h17, h18, h19, h20⟩ := run_char_ne o inD goal kw fuel fs0 res st hg h
  refine ⟨n, dC, h1, h10, ?_, ?_, ?_, ?_⟩
  · intro k hk
    rw [h10, List.getElem?_append_left (by rw [callsAt_length]; omega),
      callsAt_getElem _ _ _ _ _ k hk]
    rfl
  · rw [h10]
    have hl := callsAt_length (phaseAInitDict (fillDefaults inD) (paramsOf inD kw).frIn
      (paramsOf inD kw).ninit) (paramsOf inD kw).initStep (paramsOf inD kw).inc 1 n
    nth_rewrite 2 [← hl]
    exact List.getElem?_concat_length _ _
  · rw [h10, List.getElem?_append_left (by rw [callsAt_length]; omega),
      callsAt_getElem _ _ _ _ _ 0 (by omega)]
    show some ((dictAtCall (phaseAInitDict (fillDefaults inD) (paramsOf inD kw).frIn
      (paramsOf inD kw).ninit) (paramsOf inD kw).initStep (paramsOf inD kw).inc
      1).read_resume) = _
    rw [dictAtCall_read_resume _ _ _ rfl 1]
    rfl
  · rw [h10, List.getElem?_append_left (by rw [callsAt_length]; omega),
      callsAt_getElem _ _ _ _ _ 1 (by omega)]
    show some ((dictAtCall (phaseAInitDict (fillDefaults inD) (paramsOf inD kw).frIn
      (paramsOf inD kw).ninit) (paramsOf inD kw).initStep (paramsOf inD kw).inc
      2).read_resume) = _
    rw [dictAtCall_read_resume _ _ _ rfl 2]
    rfl

/-- C9 counterexample: in the concrete `oracleW` run the first two sampler
invocations receive the SAME heap reference but with DIFFERENT contents —
the record passed to the first invocation was mutated afterwards, refuting
"created fresh for that invocation and never mutated after being passed". -/
theorem C9_shared_mutated_record :
    1 < (run_dypolychord oracleW {} 1 {} 10 (fun _ => none)).2.calls.length ∧
    ((run_dypolychord oracleW {} 1 {} 10 (fun _ => none)).2.calls.map Prod.fst)[0]? =
      ((run_dypolychord oracleW {} 1 {} 10 (fun _ => none)).2.calls.map Prod.fst)[1]? ∧
    ((run_dypolychord oracleW {} 1 {} 10 (fun _ => none)).2.calls.map Prod.snd)[0]? ≠
      ((run_dypolychord oracleW {} 1 {} 10 (fun _ => none)).2.calls.map Prod.snd)[1]? :=
  ⟨by with_unfolding_all decide, by with_unfolding_all decide,
    by with_unfolding_all decide⟩

/-- C9 witness: `C9_config_reuse` applied to the concrete `oracleW` run. -/
theorem C9_config_reuse_witness :
    ∃ n dC, 2 ≤ n ∧
      (run_dypolychord oracleW {} 1 {} 10 (fun _ => none)).2.calls =
        callsAt (phaseAInitDict (fillDefaults {}) (paramsOf {} {}).frIn
          (paramsOf {} {}).ninit) (paramsOf {} {}).initStep (paramsOf {} {}).inc 1 n
        ++ [(2, dC)] ∧
      (∀ k, k < n →
        ((run_dypolychord oracleW {} 1 {} 10 (fun _ => none)).2.calls[k]?).map Prod.fst =
          some 1) ∧
      (run_dypolychord oracleW {} 1 {} 10 (fun _ => none)).2.calls[n]? = some (2, dC) ∧
      ((run_dypolychord oracleW {} 1 {} 10 (fun _ => none)).2.calls[0]?).map
        (fun c => c.2.read_resume) = some (some false) ∧
      ((run_dypolychord oracleW {} 1 {} 10 (fun _ => none)).2.calls[1]?).map
        (fun c => c.2.read_resume) = some (some true) :=
  C9_config_reuse oracleW {} 1 {} 10 (fun _ => none)
    ⟨400, ⟨30, [(1/2, 50)]⟩, some 30, some [20, 30, 30]⟩
    (run_dypolychord oracleW {} 1 {} 10 (fun _ => none)).2
    (by norm_num)
    (Prod.ext (by with_unfolding_all decide) rfl)

/-- C10 (confirmed): the caller's dict object (heap reference 0) holds the
default-filled configuration already when `setup` returns — before any
other work — and still holds exactly it when the whole run returns:
missing keys were inserted in place with their defaults, present keys were
kept, and none of the phase-specific overrides (file roots, `nlive`, seed,
`max_ndead`, resume flags, `nlives`) ever reached it (they all went to the
deep copies at references 1 and 2). -/
theorem C10_caller_dict (o : Oracle) (inD : SDict) (goal : ℚ) (kw : Kwargs) (fuel : Nat)
    (fs0 : FKey → Option Nat) (res : Res) (st : St)
    (h : run_dypolychord o inD goal kw fuel fs0 = (.ok res, st)) :
    st.heap 0 = fillDefaults inD ∧
    (setup inD kw fs0).2.heap 0 = fillDefaults inD ∧
    (inD.nlive = none → (st.heap 0).nlive = some 100) ∧
    (∀ v, inD.nlive = some v → (st.heap 0).nlive = some v) ∧
    (inD.max_ndead = none → (st.heap 0).max_ndead = some (-1)) ∧
    (∀ v, inD.max_ndead = some v → (st.heap 0).max_ndead = some v) ∧
    (inD.seed = none → (st.heap 0).seed = some (-1)) ∧
    (∀ v, inD.seed = some v → (st.heap 0).seed = some v) := by
  have h0 : st.heap 0 = fillDefaults inD := by
    by_cases hg : goal = 0
    · subst hg
      obtain ⟨dC, mv, h1, h2, h3, h4, h5, h6, h7, h8, h9, h10, h11, h12, h13, h14, h15,
        h16, h17, h18, h19⟩ := run_char_zero o inD kw fuel fs0 res st h
      exact h18
    · obtain ⟨n, dC, h1, h2, h3, h4, h5, h6, h7, h8, h9, h10, h11, h12, h13, h14, h15,
        h16, h17, h18, h19, h20⟩ := run_char_ne o inD goal kw fuel fs0 res st hg h
      exact h19
  refine ⟨h0, (setup_snd inD kw fs0).1, ?_, ?_, ?_, ?_, ?_, ?_⟩
  · intro hv
    rw [h0]
    simp [fillDefaults, hv]
  · intro v hv
    rw [h0]
    simp [fillDefaults, hv]
  · intro hv
    rw [h0]
    simp [fillDefaults, hv]
  · intro v hv
    rw [h0]
    simp [fillDefaults, hv]
  · intro hv
    rw [h0]
    simp [fillDefaults, hv]
  · intro v hv
    rw [h0]
    simp [fillDefaults, hv]

/-- C10 witness: `C10_caller_dict` applied to the concrete `oracleZ`
evidence-goal run with an empty caller dict. -/
theorem C10_caller_dict_witness :
    (run_dypolychord oracleZ {} 0 {} 10 (fun _ => none)).2.heap 0 = fillDefaults {} ∧
    (setup {} {} (fun _ => none)).2.heap 0 = fillDefaults {} ∧
    ((SDict.mk none none none none none none none none none none none none none none
        none none).nlive = none →
      ((run_dypolychord oracleZ {} 0 {} 10 (fun _ => none)).2.heap 0).nlive = some 100) ∧
    (∀ v, (SDict.mk none none none none none none none none none none none none none
        none none none).nlive = some v →
      ((run_dypolychord oracleZ {} 0 {} 10 (fun _ => none)).2.heap 0).nlive = some v) ∧
    ((SDict.mk none none none none none none none none none none none none none none
        none none).max_ndead = none →
      ((run_dypolychord oracleZ {} 0 {} 10 (fun _ => none)).2.heap 0).max_ndead =
        some (-1)) ∧
    (∀ v, (SDict.mk none none none none none none none none none none none none none
        none none none).max_ndead = some v →
      ((run_dypolychord oracleZ {} 0 {} 10 (fun _ => none)).2.heap 0).max_ndead =
        some v) ∧
    ((SDict.mk none none none none none none none none none none none none none none
        none none).seed = none →
      ((run_dypolychord oracleZ {} 0 {} 10 (fun _ => none)).2.heap 0).seed =
        some (-1)) ∧
    (∀ v, (SDict.mk none none none none none none none none none none none none none
        none none none).seed = some v →
      ((run_dypolychord oracleZ {} 0 {} 10 (fun _ => none)).2.heap 0).seed = some v) :=
  C10_caller_dict oracleZ {} 0 {} 10 (fun _ => none)
    ⟨400, ⟨0, [(1/2, 50)]⟩, none, none⟩
    (run_dypolychord oracleZ {} 0 {} 10 (fun _ => none)).2
    (Prod.ext (by with_unfolding_all decide) rfl)
